import Mathlib

/-!
# Sia Ant Farm: the per-ant job runner and its balance maintainer

A shallow embedding of `ant/job_balancemaintainer.go`, `ant/job_gateway.go` and
`ant/jobrunner.go` and of the release selection of
`binaries-builder/build_binaries.go`, with the thread group, the job registry,
the peer connection and the consensus grouping of the ant farm modelled from
the specification.

The node behind `j.staticClient` and the thread group are external; a run of a
job is therefore modelled as a function of the answers the environment gives
(the result of every API call, and which branch every `select` takes), and it
produces the sequence of observable events together with the value of the
local variable `minerRunning`.
-/

namespace AntFarm

/-! ## Currency -/

/-- The type `types.Currency`: a non-negative arbitrary-precision integer. -/
abbrev Currency := Nat

/-- The method `Currency.Cmp`: -1, 0 or 1 as `x` is below, equal to or above `y`. -/
def Currency.Cmp (x y : Currency) : Int :=
  if x < y then -1 else if x = y then 0 else 1

/-! ## Constants of `job_balancemaintainer.go` (in seconds) -/

/-- How often the balance maintainer checks the wallet balance: `time.Second * 20`. -/
def walletBalanceCheckInterval : Nat := 20

/-- How long the balance maintainer sleeps after an error: `time.Second * 5`. -/
def balanceMaintainerErrorSleepDuration : Nat := 5

/-! ## Observable events of a job -/

/-- The node API calls issued by the background jobs. -/
inductive NodeCall
  | MinerStartGet
  | MinerStopGet
  | WalletGet
  | GatewayGet
  deriving DecidableEq, Repr

/-- The log lines of `balanceMaintainer`, one constructor per logging statement. -/
inductive LogMsg
  /-- The line "can't start miner: %v", logged before the loop. -/
  | cantStartMinerAtStart
  /-- The line "Can't get wallet info: %v". -/
  | cantGetWalletInfo
  /-- The line "Not enough currency, starting the miner". -/
  | notEnoughCurrency
  /-- The line "Can't start miner: %v", logged inside the loop. -/
  | cantStartMiner
  /-- The line "Mined enough currency, stopping the miner". -/
  | minedEnoughCurrency
  /-- The line "Can't stop miner: %v". -/
  | cantStopMiner
  /-- The line "error when calling /gateway: %v" of `gatewayConnectability`. -/
  | errorCallingGateway
  /-- The line "ant has less than two peers: %v" of `gatewayConnectability`. -/
  | lessThanTwoPeers
  deriving DecidableEq, Repr

/-- What a job does that is visible from outside, in program order. -/
inductive Event
  /-- The call `j.StaticTG.Add()`, with whether it returned a nil error. -/
  | tgAdd (ok : Bool)
  /-- The deferred `j.StaticTG.Done()`. -/
  | tgDone
  /-- The call `j.waitForAntsSync()`, with its result. -/
  | waitForAntsSync (synced : Bool)
  /-- The call `AntSyncWG.Wait()`, with whether it has returned. -/
  | antSyncWGWait (finished : Bool)
  /-- A node API call, with whether it returned a nil error. -/
  | call (c : NodeCall) (ok : Bool)
  /-- A log statement. -/
  | logLine (msg : LogMsg)
  /-- A `select` between `StopChan()` and `time.After(seconds)`; `stopped` tells
  whether the stop channel was the case taken. -/
  | selectWait (seconds : Nat) (stopped : Bool)
  deriving DecidableEq, Repr

/-! ## The environment of one run of `balanceMaintainer` -/

/-- The answers of the environment during one iteration of the `for` loop. An
iteration issues one `WalletGet`, at most one miner command, and reaches
exactly one `select`. -/
structure Poll where
  /-- Result of `WalletGet`: `none` is a non-nil error, `some b` is a wallet
  whose `ConfirmedSiacoinBalance` is `b`. -/
  walletGet : Option Currency
  /-- Whether the miner command of this iteration, if one is issued, returns a
  nil error. -/
  minerCmdOk : Bool
  /-- Whether the `select` reached in this iteration takes the `StopChan()` case. -/
  stop : Bool
  deriving DecidableEq, Repr

/-- The answers of the environment during one run of `balanceMaintainer`. -/
structure JobEnv where
  /-- Whether `j.StaticTG.Add()` returns a nil error. -/
  addOk : Bool
  /-- Result of `j.waitForAntsSync()`. -/
  synced : Bool
  /-- Whether the node's miner is running when the job starts. No statement of
  `balanceMaintainer` reads it: the client is never asked for the miner status. -/
  minerOnAtStart : Bool
  /-- Whether the `MinerStartGet` issued before the loop returns a nil error. -/
  firstStartOk : Bool
  /-- The answers for the successive loop iterations. -/
  polls : List Poll
  deriving DecidableEq, Repr

/-- The outcome of one iteration of the `for` loop. -/
structure StepResult where
  /-- Value of the local variable `minerRunning` when the iteration ends. -/
  minerRunning : Bool
  /-- Events of the iteration. -/
  events : List Event
  /-- Whether the iteration executed `return`. -/
  returned : Bool
  deriving DecidableEq, Repr

/-- One iteration of the `for` loop of `balanceMaintainer`
(`job_balancemaintainer.go`, lines 48-92), started with the given value of
`minerRunning`. -/
def pollIteration (desiredBalance : Currency) (minerRunning : Bool) (p : Poll) : StepResult :=
  match p.walletGet with
  | none =>
    { minerRunning := minerRunning
      events := [.call .WalletGet false, .logLine .cantGetWalletInfo,
        .selectWait balanceMaintainerErrorSleepDuration p.stop]
      returned := p.stop }
  | some confirmedSiacoinBalance =>
    let haveDesiredBalance : Bool := decide (Currency.Cmp confirmedSiacoinBalance desiredBalance > 0)
    if !minerRunning && !haveDesiredBalance then
      -- minerRunning = true precedes the call
      if p.minerCmdOk then
        { minerRunning := true
          events := [.call .WalletGet true, .logLine .notEnoughCurrency,
            .call .MinerStartGet true, .selectWait walletBalanceCheckInterval p.stop]
          returned := p.stop }
      else
        { minerRunning := true
          events := [.call .WalletGet true, .logLine .notEnoughCurrency,
            .call .MinerStartGet false, .logLine .cantStartMiner,
            .selectWait balanceMaintainerErrorSleepDuration p.stop]
          returned := p.stop }
    else if minerRunning && haveDesiredBalance then
      -- minerRunning = false precedes the call
      if p.minerCmdOk then
        { minerRunning := false
          events := [.call .WalletGet true, .logLine .minedEnoughCurrency,
            .call .MinerStopGet true, .selectWait walletBalanceCheckInterval p.stop]
          returned := p.stop }
      else
        { minerRunning := false
          events := [.call .WalletGet true, .logLine .minedEnoughCurrency,
            .call .MinerStopGet false, .logLine .cantStopMiner,
            .selectWait balanceMaintainerErrorSleepDuration p.stop]
          returned := p.stop }
    else
      { minerRunning := minerRunning
        events := [.call .WalletGet true, .selectWait walletBalanceCheckInterval p.stop]
        returned := p.stop }

/-- The `for` loop of `balanceMaintainer` run against the given answers: the
outcomes of the iterations executed, in order. The loop ends with the first
iteration that returns; when the answers run out the job is still looping. -/
def pollLoop (desiredBalance : Currency) : Bool → List Poll → List StepResult
  | _, [] => []
  | minerRunning, p :: ps =>
    let r := pollIteration desiredBalance minerRunning p
    r :: (if r.returned then [] else pollLoop desiredBalance r.minerRunning ps)

/-- The outcome of a run of `balanceMaintainer`. -/
structure JobRun where
  /-- The events of the run, in order. -/
  events : List Event
  /-- Value of `minerRunning` when the loop is entered; `none` when the loop is
  not reached. -/
  initialState : Option Bool
  /-- The loop iterations executed. -/
  steps : List StepResult
  /-- Whether the job function has returned (otherwise it is still looping). -/
  returned : Bool
  deriving DecidableEq, Repr

/-- Whether the last executed iteration returned. -/
def loopReturned (steps : List StepResult) : Bool :=
  match steps.getLast? with
  | some r => r.returned
  | none => false

/-- The events of the executed iterations. -/
def loopEvents (steps : List StepResult) : List Event :=
  (steps.map StepResult.events).flatten

/-- The method `(*JobRunner).balanceMaintainer` (`job_balancemaintainer.go`,
lines 24-93). -/
def balanceMaintainer (env : JobEnv) (desiredBalance : Currency) : JobRun :=
  if !env.addOk then
    { events := [.tgAdd false], initialState := none, steps := [], returned := true }
  else if !env.synced then
    { events := [.tgAdd true, .waitForAntsSync false, .tgDone]
      initialState := none, steps := [], returned := true }
  else
    -- minerRunning := true
    if !env.firstStartOk then
      { events := [.tgAdd true, .waitForAntsSync true, .call .MinerStartGet false,
          .logLine .cantStartMinerAtStart, .tgDone]
        initialState := none, steps := [], returned := true }
    else
      let steps := pollLoop desiredBalance true env.polls
      { events := [.tgAdd true, .waitForAntsSync true, .call .MinerStartGet true]
          ++ loopEvents steps ++ (if loopReturned steps then [.tgDone] else [])
        initialState := some true
        steps := steps
        returned := loopReturned steps }

/-- The value of `minerRunning` after the last executed iteration (the starting
value when none was executed). -/
def finalState (start : Bool) (steps : List StepResult) : Bool :=
  match steps.getLast? with
  | some r => r.minerRunning
  | none => start

/-- The miner commands among a list of events. -/
def minerCommands (evs : List Event) : List NodeCall :=
  evs.filterMap fun e =>
    match e with
    | .call .MinerStartGet _ => some .MinerStartGet
    | .call .MinerStopGet _ => some .MinerStopGet
    | _ => none

/-- The answers of an environment in which every API call succeeds, the wallet
reports the given balances one poll after the other, and stop is not signalled. -/
def okPolls (balances : List Currency) : List Poll :=
  balances.map fun b => { walletGet := some b, minerCmdOk := true, stop := false }

/-! ## The job runner (`jobrunner.go`) -/

/-- A non-nil Go `error`, by its message; a nil error is `none : Option Error`. -/
abbrev Error := String

/-- The function `errors.AddContext` applied to a non-nil error. -/
def AddContext (err : Error) (context : String) : Error :=
  context ++ ": " ++ err

/-- The fields of `client.Options` set by `newJobRunner`. -/
structure Options where
  Address : String
  Password : String
  deriving DecidableEq, Repr

/-- The fields of the ant's configuration read by the job runner. -/
structure AntConfig where
  DataDir : String
  APIPassword : String
  deriving DecidableEq, Repr

/-- The fields of `Ant` read by the job runner. -/
structure Ant where
  APIAddr : String
  Config : AntConfig
  deriving DecidableEq, Repr

/-- The field of the node's answer to `/wallet` read by `newJobRunner`. -/
structure WalletGET where
  Encrypted : Bool
  deriving DecidableEq, Repr

/-- The field of the node's answer to `/wallet/init` read by `newJobRunner`. -/
structure WalletInitPOST where
  PrimarySeed : String
  deriving DecidableEq, Repr

/-- The wallet API calls of `newJobRunner`, with their arguments. -/
inductive WalletCall
  | WalletGet
  | WalletInitPost (password : String) (force : Bool)
  | WalletInitSeedPost (seed : String) (password : String) (force : Bool)
  | WalletUnlockPost (password : String)
  deriving DecidableEq, Repr

/-- The log lines of `newJobRunner`, one constructor per logging statement. -/
inductive RunnerLog
  /-- The error line "can't init wallet: %v". -/
  | cantInitWallet
  /-- The debug line "init wallet". -/
  | initWallet
  /-- The error line "can't init wallet using existing seed: %v". -/
  | cantInitWalletUsingSeed
  /-- The debug line "init wallet using existing seed". -/
  | initWalletUsingSeed
  /-- The debug line "use existing initialized wallet". -/
  | useExistingWallet
  deriving DecidableEq, Repr

/-- The answers that the client library and the node behind it give to
`newJobRunner`. Each call is made at most once in a run, so one answer per
call (depending on its arguments) describes any node. -/
structure Client where
  /-- Answer of `client.DefaultOptions()`. -/
  DefaultOptions : Except Error Options
  /-- Answer of `WalletGet()`. -/
  WalletGet : Except Error WalletGET
  /-- Answer of `WalletInitPost(password, force)`. -/
  WalletInitPost : String → Bool → Except Error WalletInitPOST
  /-- Answer of `WalletInitSeedPost(seed, password, force)`: the error, `none` for nil. -/
  WalletInitSeedPost : String → String → Bool → Option Error
  /-- Answer of `WalletUnlockPost(password)`: the error, `none` for nil. -/
  WalletUnlockPost : String → Option Error

/-- The struct `JobRunner`: the fields that `jobrunner.go` assigns. The zero
value of a pointer field is `none`. -/
structure JobRunner where
  staticAnt : Option Ant
  staticClient : Option Options
  StaticWalletSeed : String
  staticDataDir : String
  deriving DecidableEq, Repr

/-- The value `&JobRunner{}`. -/
def JobRunner.zero : JobRunner :=
  { staticAnt := none, staticClient := none, StaticWalletSeed := "", staticDataDir := "" }

/-- The outcome of `newJobRunner` or `recreateJobRunner`: the returned pair
`(*JobRunner, error)` (a nil pointer or nil error is `none`), the wallet API
calls issued in order, each with whether it returned a nil error, and the log
lines written. -/
structure RunnerResult where
  runner : Option JobRunner
  err : Option Error
  calls : List (WalletCall × Bool)
  logs : List RunnerLog
  deriving DecidableEq, Repr

/-- The function `newJobRunner` (`jobrunner.go`, lines 32-89). -/
def newJobRunner (c : Client) (ant : Ant) (apiaddr authpassword _siadirectory
    existingWalletSeed : String) : RunnerResult :=
  match c.DefaultOptions with
  | .error err =>
    { runner := none, err := some (AddContext err "unable to get client options")
      calls := [], logs := [] }
  | .ok opt =>
    let opt : Options := { opt with Address := apiaddr, Password := authpassword }
    let jr : JobRunner :=
      { staticAnt := some ant, staticClient := some opt, StaticWalletSeed := ""
        staticDataDir := ant.Config.DataDir }
    -- the closing statements of the function, reached from each branch
    let unlock (jr : JobRunner) (calls : List (WalletCall × Bool)) (logs : List RunnerLog) :
        RunnerResult :=
      match c.WalletUnlockPost jr.StaticWalletSeed with
      | some err =>
        { runner := none, err := some err
          calls := calls ++ [(.WalletUnlockPost jr.StaticWalletSeed, false)], logs := logs }
      | none =>
        { runner := some jr, err := none
          calls := calls ++ [(.WalletUnlockPost jr.StaticWalletSeed, true)], logs := logs }
    match c.WalletGet with
    | .error err =>
      { runner := none, err := some (AddContext err "can't get wallet info")
        calls := [(.WalletGet, false)], logs := [] }
    | .ok wg =>
      if existingWalletSeed = "" then
        match c.WalletInitPost "" false with
        | .error err =>
          { runner := none, err := some (AddContext err "can't init wallet")
            calls := [(.WalletGet, true), (.WalletInitPost "" false, false)]
            logs := [.cantInitWallet] }
        | .ok walletParams =>
          unlock { jr with StaticWalletSeed := walletParams.PrimarySeed }
            [(.WalletGet, true), (.WalletInitPost "" false, true)] [.initWallet]
      else if !wg.Encrypted then
        match c.WalletInitSeedPost existingWalletSeed "" false with
        | some err =>
          { runner := none, err := some (AddContext err "can't init wallet using existing seed")
            calls := [(.WalletGet, true), (.WalletInitSeedPost existingWalletSeed "" false, false)]
            logs := [.cantInitWalletUsingSeed] }
        | none =>
          unlock { jr with StaticWalletSeed := existingWalletSeed }
            [(.WalletGet, true), (.WalletInitSeedPost existingWalletSeed "" false, true)]
            [.initWalletUsingSeed]
      else
        unlock { jr with StaticWalletSeed := existingWalletSeed }
          [(.WalletGet, true)] [.useExistingWallet]

/-- The function `recreateJobRunner` (`jobrunner.go`, lines 120-130). The
result is `none` when `j.staticAnt` is nil, where the Go code panics on the
dereference. -/
def recreateJobRunner (c : Client) (j : JobRunner) : Option RunnerResult :=
  match j.staticAnt with
  | none => none
  | some ant =>
    let r := newJobRunner c ant ant.APIAddr ant.Config.APIPassword j.staticDataDir
      j.StaticWalletSeed
    match r.err with
    | some err =>
      some { runner := some JobRunner.zero
             err := some (AddContext err "couldn't create an updated job runner")
             calls := r.calls, logs := r.logs }
    | none => some r

/-- Whether the client answers the given wallet call with a nil error. -/
def Client.succeeds (c : Client) : WalletCall → Bool
  | .WalletGet => c.WalletGet.toOption.isSome
  | .WalletInitPost password force => (c.WalletInitPost password force).toOption.isSome
  | .WalletInitSeedPost seed password force => (c.WalletInitSeedPost seed password force).isNone
  | .WalletUnlockPost password => (c.WalletUnlockPost password).isNone

/-- Whether a wallet call initializes the wallet. -/
def WalletCall.isInit : WalletCall → Bool
  | .WalletInitPost _ _ => true
  | .WalletInitSeedPost _ _ _ => true
  | _ => false

/-- Whether a wallet call is `WalletUnlockPost`. -/
def WalletCall.isUnlock : WalletCall → Bool
  | .WalletUnlockPost _ => true
  | _ => false

/-- Whether a wallet call is `WalletInitPost`, the call that generates a seed. -/
def WalletCall.isInitPost : WalletCall → Bool
  | .WalletInitPost _ _ => true
  | _ => false

/-- The calls of a run without their results. -/
def RunnerResult.issued (r : RunnerResult) : List WalletCall :=
  r.calls.map Prod.fst

/-- The values of `minerRunning` after each executed iteration of a run. -/
def JobRun.statesAfter (run : JobRun) : List Bool :=
  run.steps.map StepResult.minerRunning

/-- Whether an event is a wallet balance query. -/
def Event.isWalletGet : Event → Bool
  | .call .WalletGet _ => true
  | _ => false

/-- The events of a run that precede its first wallet balance query. -/
def beforeFirstPoll (evs : List Event) : List Event :=
  evs.takeWhile fun e => !e.isWalletGet

/-- Whether an event is a `select` in which the stop signal was observed. -/
def Event.isStopObserved : Event → Bool
  | .selectWait _ stopped => stopped
  | _ => false

/-! ## Concrete nodes used as examples -/

/-- An ant, as configured by the ant farm. -/
def exampleAnt : Ant :=
  { APIAddr := "127.0.0.1:9980", Config := { DataDir := "ant-data", APIPassword := "pw" } }

/-- A freshly started node: the wallet is not encrypted, `/wallet/init`
generates the seed "generated seed", every call succeeds. -/
def freshNode : Client :=
  { DefaultOptions := .ok { Address := "localhost:9980", Password := "" }
    WalletGet := .ok { Encrypted := false }
    WalletInitPost := fun _ _ => .ok { PrimarySeed := "generated seed" }
    WalletInitSeedPost := fun _ _ _ => none
    WalletUnlockPost := fun _ => none }

/-- A node whose wallet is already encrypted: both ways of initializing the
wallet are refused, unlocking succeeds. -/
def encryptedNode : Client :=
  { DefaultOptions := .ok { Address := "localhost:9980", Password := "" }
    WalletGet := .ok { Encrypted := true }
    WalletInitPost := fun _ _ => .error "wallet is already encrypted, cannot encrypt again"
    WalletInitSeedPost := fun _ _ _ => some "wallet is already encrypted, cannot encrypt again"
    WalletUnlockPost := fun _ => none }

/-- A node that answers `/wallet/init` successfully with an empty primary seed. -/
def emptySeedNode : Client :=
  { freshNode with WalletInitPost := fun _ _ => .ok { PrimarySeed := "" } }

/-- The runner that `newJobRunner` returns on `emptySeedNode` when no seed is supplied. -/
def emptySeedRunner : JobRunner :=
  { staticAnt := some exampleAnt
    staticClient := some { Address := "127.0.0.1:9980", Password := "pw" }
    StaticWalletSeed := ""
    staticDataDir := "ant-data" }

/-! ## The barrier wait (`jobrunner.go`) -/

/-- What the `select` of `waitForAntsSync` finds at the moment it fires, that
is, the first moment at which one of its two channels is ready. -/
structure SyncEnv where
  /-- Whether channel `c` is ready: the goroutine's `j.staticAntsSyncWG.Wait()`
  has returned, so the barrier has been released. -/
  barrierReleased : Bool
  /-- Whether `j.StaticTG.StopChan()` is ready: stop has been signalled. -/
  stopSignalled : Bool
  /-- Which case the `select` takes when both channels are ready. -/
  stopChosen : Bool
  deriving DecidableEq, Repr

/-- The method `(*JobRunner).waitForAntsSync` (`jobrunner.go`, lines 101-118):
`some true` when the wait has finished, `some false` when the job runner was
stopped, `none` when neither channel ever becomes ready and the call blocks. -/
def waitForAntsSync (w : SyncEnv) : Option Bool :=
  if w.barrierReleased && w.stopSignalled then some (!w.stopChosen)
  else if w.barrierReleased then some true
  else if w.stopSignalled then some false
  else none

/-! ## Gateway connectability (`job_gateway.go`) -/

/-- The initial sleep time for gateway connectability: `time.Minute`. -/
def gatewayConnectabilityInitialSleepTime : Nat := 60

/-- The sleep time for gateway connectability: `time.Second * 30`. -/
def gatewayConnectabilitySleepTime : Nat := 30

/-- The field of the node's answer to `/gateway` read by `gatewayConnectability`. -/
structure GatewayGET where
  Peers : List String
  deriving DecidableEq, Repr

/-- The answers of the environment during one iteration of the `for` loop of
`gatewayConnectability`. -/
structure GatewayTick where
  /-- Whether the `select` at the top of the iteration takes the `StopChan()` case. -/
  stop : Bool
  /-- The value returned by `GatewayGet()`. -/
  gatewayInfo : GatewayGET
  /-- The error returned by `GatewayGet()`, `none` for nil. -/
  err : Option Error
  deriving DecidableEq, Repr

/-- The answers of the environment during one run of `gatewayConnectability`. -/
structure GatewayEnv where
  /-- Whether `j.StaticTG.Add()` returns a nil error. -/
  addOk : Bool
  /-- Whether `AntSyncWG.Wait()` returns, that is, the barrier is released. -/
  barrierReleased : Bool
  /-- Whether the `select` of the initial sleep takes the `StopChan()` case. -/
  warmupStop : Bool
  /-- The answers for the successive loop iterations. -/
  ticks : List GatewayTick
  deriving DecidableEq, Repr

/-- The outcome of one iteration of the `for` loop of `gatewayConnectability`. -/
structure GatewayStep where
  /-- Events of the iteration. -/
  events : List Event
  /-- Whether the iteration executed `return`. -/
  returned : Bool
  deriving DecidableEq, Repr

/-- One iteration of the `for` loop of `gatewayConnectability`
(`job_gateway.go`, lines 33-51). -/
def gatewayIteration (t : GatewayTick) : GatewayStep :=
  if t.stop then
    { events := [.selectWait gatewayConnectabilitySleepTime true], returned := true }
  else
    { events := [.selectWait gatewayConnectabilitySleepTime false,
          .call .GatewayGet t.err.isNone]
        ++ (if t.err.isSome then [.logLine .errorCallingGateway] else [])
        ++ (if t.gatewayInfo.Peers.length < 2 then [.logLine .lessThanTwoPeers] else [])
      returned := false }

/-- The `for` loop of `gatewayConnectability` run against the given answers:
the outcomes of the iterations executed, in order. -/
def gatewayLoop : List GatewayTick → List GatewayStep
  | [] => []
  | t :: ts =>
    let r := gatewayIteration t
    r :: (if r.returned then [] else gatewayLoop ts)

/-- The outcome of a run of `gatewayConnectability`. -/
structure GatewayRun where
  /-- The events of the run, in order. -/
  events : List Event
  /-- The loop iterations executed. -/
  steps : List GatewayStep
  /-- Whether the job function has returned (otherwise it is blocked in
  `AntSyncWG.Wait()` or still looping). -/
  returned : Bool
  deriving DecidableEq, Repr

/-- Whether the last executed iteration of the gateway loop returned. -/
def gatewayLoopReturned (steps : List GatewayStep) : Bool :=
  match steps.getLast? with
  | some r => r.returned
  | none => false

/-- The events of the executed iterations of the gateway loop. -/
def gatewayLoopEvents (steps : List GatewayStep) : List Event :=
  (steps.map GatewayStep.events).flatten

/-- The method `(*JobRunner).gatewayConnectability` (`job_gateway.go`, lines
19-52). The error of `j.StaticTG.Add()` is discarded, and `AntSyncWG.Wait()`
has no stop case. -/
def gatewayConnectability (env : GatewayEnv) : GatewayRun :=
  if !env.barrierReleased then
    { events := [.tgAdd env.addOk, .antSyncWGWait false], steps := [], returned := false }
  else if env.warmupStop then
    { events := [.tgAdd env.addOk, .antSyncWGWait true,
        .selectWait gatewayConnectabilityInitialSleepTime true, .tgDone]
      steps := [], returned := true }
  else
    let steps := gatewayLoop env.ticks
    { events := [.tgAdd env.addOk, .antSyncWGWait true,
          .selectWait gatewayConnectabilityInitialSleepTime false]
        ++ gatewayLoopEvents steps ++ (if gatewayLoopReturned steps then [.tgDone] else [])
      steps := steps
      returned := gatewayLoopReturned steps }

/-- Whether an event is a node API call. -/
def Event.isCall : Event → Bool
  | .call _ _ => true
  | _ => false

/-- Whether an event is a wait on the fleet sync barrier. -/
def Event.isBarrierWait : Event → Bool
  | .waitForAntsSync _ => true
  | .antSyncWGWait _ => true
  | _ => false

/-- Whether an event is the deferred `Done`. -/
def Event.isDone : Event → Bool
  | .tgDone => true
  | _ => false

/-- The durations of the timed waits among a list of events, in order. -/
def waitDurations (evs : List Event) : List Nat :=
  evs.filterMap fun e =>
    match e with
    | .selectWait seconds _ => some seconds
    | _ => none

/-! ## The thread group and `JobRunner.Stop` -/

/-- Modelled from the spec: the Cancellable Work Group of section 4.1, in the
source the type `threadgroup.ThreadGroup` of `StaticTG`, whose code is not among
the sources. The state holds whether the group has begun stopping and how many
units have entered and not yet exited. -/
structure ThreadGroup where
  stopped : Bool
  entered : Nat
  deriving DecidableEq, Repr

/-- Modelled from the spec: the error `ErrStopped` of the work group. -/
def ErrStopped : Error := "ThreadGroup already stopped"

/-- Modelled from the spec: `TryEnter()` (in the source `Add`) succeeds unless
the group has begun stopping, in which case it fails with `ErrStopped`. -/
def ThreadGroup.Add (tg : ThreadGroup) : ThreadGroup × Option Error :=
  if tg.stopped then (tg, some ErrStopped)
  else ({ tg with entered := tg.entered + 1 }, none)

/-- Modelled from the spec: `Exit()` (in the source `Done`) of one entered unit. -/
def ThreadGroup.Done (tg : ThreadGroup) : ThreadGroup :=
  { tg with entered := tg.entered - 1 }

/-- Modelled from the spec: `Stop()` signals all entered work and blocks until
every entered unit has exited, so that on return none remains; a second
`Stop()` returns immediately with success. -/
def ThreadGroup.Stop (tg : ThreadGroup) : ThreadGroup × Option Error :=
  if tg.stopped then (tg, none)
  else ({ stopped := true, entered := 0 }, none)

/-- The method `(*JobRunner).Stop` (`jobrunner.go`, lines 91-99), acting on the
runner's `StaticTG`; `stop` is the `Stop` method of the thread group. -/
def JobRunner.Stop {TG : Type} (stop : TG → TG × Option Error) (StaticTG : TG) :
    TG × Option Error :=
  match stop StaticTG with
  | (tg, some err) => (tg, some (AddContext err "can't stop thread group"))
  | (tg, none) => (tg, none)

/-! ## Consensus groups -/

/-- The chain tip an ant reports: its height and the identifier of the block at
that height. -/
structure ChainTip where
  height : Nat
  blockID : String
  deriving DecidableEq, Repr

/-- Modelled from the spec: the error `ErrConsensusQuery` of section 4.6. -/
def ErrConsensusQuery : Error := "consensus query failed"

/-- Modelled from the spec: one step of the grouping in `antConsensusGroups`,
whose code (`antfarm/ant.go`) is not among the sources. The ant joins the first
existing group that reports the same tip; if no existing group matches, it
defines a new group, placed after the existing ones. -/
def placeAnt {α : Type} (a : α) (tip : ChainTip) :
    List (ChainTip × List α) → List (ChainTip × List α)
  | [] => [(tip, [a])]
  | (t, g) :: rest =>
    if t = tip then (t, g ++ [a]) :: rest else (t, g) :: placeAnt a tip rest

/-- Modelled from the spec: the loop of `antConsensusGroups` over the ants, in
input order, from the groups formed so far. Each ant is queried for its chain
tip; a query failure for any ant fails the whole computation with
`ErrConsensusQuery`. -/
def groupAnts {α : Type} (query : α → Except Error ChainTip) :
    List α → List (ChainTip × List α) → Except Error (List (ChainTip × List α))
  | [], groups => .ok groups
  | a :: rest, groups =>
    match query a with
    | .error err => .error (AddContext err ErrConsensusQuery)
    | .ok tip => groupAnts query rest (placeAnt a tip groups)

/-- Modelled from the spec: the function `antConsensusGroups` (section 4.6,
`ComputeConsensusGroups`), whose code (`antfarm/ant.go`) is not among the
sources; only its test `TestAntConsensusGroups` is. The groups are computed
fresh from no groups. -/
def antConsensusGroups {α : Type} (query : α → Except Error ChainTip) (ants : List α) :
    Except Error (List (List α)) :=
  match groupAnts query ants [] with
  | .error err => .error err
  | .ok groups => .ok (groups.map Prod.snd)

/-- The events of a run from its first wait that observed the stop signal on
(empty when no wait observed it). -/
def fromFirstStop (evs : List Event) : List Event :=
  evs.dropWhile fun e => !e.isStopObserved

/-- The events of a run that precede the first barrier wait that found the
barrier released (all of them when there is none). -/
def beforeBarrierRelease (evs : List Event) : List Event :=
  evs.takeWhile fun e => !decide (e = Event.waitForAntsSync true)

/-- The invariant of the grouping loop: `groups` are the groups formed once the
ants `seen` have been placed, each group carrying the tip its members report. -/
structure GroupsInv {α : Type} (tip : α → ChainTip) (groups : List (ChainTip × List α))
    (seen : List α) : Prop where
  /-- No two groups carry the same tip. -/
  keys_nodup : (groups.map Prod.fst).Nodup
  /-- A group holds, in the order seen, exactly the ants that report its tip. -/
  members : ∀ tg ∈ groups, tg.2 = seen.filter (fun a => decide (tip a = tg.1))
  /-- No group is empty. -/
  nonempty : ∀ tg ∈ groups, tg.2 ≠ []
  /-- The tip of every ant seen is the tip of a group. -/
  covered : ∀ b ∈ seen, tip b ∈ groups.map Prod.fst
  /-- The groups together hold the ants seen, each as often as it was seen. -/
  perm : (groups.map Prod.snd).flatten.Perm seen
  /-- The first members of the groups occur in the order in which they were seen. -/
  heads : (groups.filterMap fun tg => tg.2.head?).Sublist seen

/-- The chain tips of the example fleet: ants 0, 1 and 2 are synced at height
100, ant 3 is desynced at height 50. -/
def exampleTip (ant : Nat) : ChainTip :=
  if ant = 3 then { height := 50, blockID := "Y" } else { height := 100, blockID := "X" }

/-! ## Starting jobs and connecting ants -/

/-- Modelled from the spec: the scheduler state of an ant (section 4.3), whose
code (`ant/ant.go`) is not among the sources: the work group and the names of
the jobs started, in the order `StartJob` was invoked. -/
structure Scheduler where
  StaticTG : ThreadGroup
  started : List String
  deriving DecidableEq, Repr

/-- Modelled from the spec: the error `ErrUnknownJob` of section 4.3. -/
def ErrUnknownJob : Error := "unknown job"

/-- Modelled from the spec: `StartJob(name)` (section 4.3), whose code
(`ant/ant.go`) is not among the sources; only its test `TestStartJob` is. The
name is looked up in the fixed registry of job implementations; an unknown name
fails with `ErrUnknownJob` without side effects, a known one starts the job. -/
def StartJob (registry : List String) (s : Scheduler) (name : String) :
    Scheduler × Option Error :=
  if name ∈ registry then ({ s with started := s.started ++ [name] }, none)
  else (s, some ErrUnknownJob)

/-- The job names that section 6 of the spec gives as examples of the registry. -/
def exampleRegistry : List String := ["miner", "gateway", "balance"]

/-- Modelled from the spec: the error `ErrInsufficientPeers` of section 4.6. -/
def ErrInsufficientPeers : Error := "you must call connectAnts with at least two ants"

/-- The outcome of `ConnectAnts`: the returned error, the peer connections
attempted, in order, as pairs (connecting ant, hub), and those that failed and
were logged. -/
structure ConnectResult (α : Type) where
  err : Option Error
  attempts : List (α × α)
  failed : List (α × α)

/-- Modelled from the spec: `ConnectAnts` (section 4.6, `ConnectPeers`), whose
code (`antfarm/ant.go`) is not among the sources; only its test
`TestConnectAnts` is. At least two ants are required, otherwise the call fails
with `ErrInsufficientPeers`; every other ant is connected to the first ant, the
hub; individual connection failures are tolerated and logged. `connect` is the
answer of the node API to a peer connection. -/
def ConnectAnts {α : Type} (connect : α → α → Option Error) : List α → ConnectResult α
  | hub :: a :: rest =>
    { err := none
      attempts := (a :: rest).map fun x => (x, hub)
      failed := ((a :: rest).map fun x => (x, hub)).filter fun c =>
        (connect c.1 c.2).isSome }
  | _ => { err := some ErrInsufficientPeers, attempts := [], failed := [] }

/-! ## Versions and releases (`binaries-builder/build_binaries.go`) -/

/-- The constant `antfarmTagSuffix`. -/
def antfarmTagSuffix : String := "-antfarm"

/-- The inner loop of `ExcludeVersions` (lines 256-262): whether some `ev` of
`excludeVersions` satisfies `v == ev || v == ev+"-antfarm"`, in which case the
outer loop continues with the next version. -/
def excludedBy (v : String) : List String → Bool
  | [] => false
  | ev :: evs => if v = ev ∨ v = ev ++ "-antfarm" then true else excludedBy v evs

/-- The outer loop of `ExcludeVersions` (lines 255-264), from the result built
so far. -/
def excludeVersionsLoop (excludeVersions : List String) :
    List String → List String → List String
  | [], result => result
  | v :: vs, result =>
    if excludedBy v excludeVersions then excludeVersionsLoop excludeVersions vs result
    else excludeVersionsLoop excludeVersions vs (result ++ [v])

/-- The function `ExcludeVersions` (`build_binaries.go`, lines 251-267). -/
def ExcludeVersions (versions excludeVersions : List String) : List String :=
  excludeVersionsLoop excludeVersions versions []

/-- What `GetReleases` reads of one tag of the GitLab answer: the field `name`
and whether the field `release` is present (`t["release"] != nil`). -/
structure TagData where
  name : String
  release : Bool
  deriving DecidableEq, Repr

/-- The call `strings.TrimLeft(s, "v")`: `s` without its leading `v` characters. -/
def TrimLeftV (s : String) : String :=
  ⟨s.data.dropWhile fun c => c = 'v'⟩

/-- The call `strings.HasSuffix(s, suffix)`. -/
def HasSuffix (s suffix : String) : Bool :=
  suffix.data.isSuffixOf s.data

/-- The release tags and the release patch tags collected by `GetReleases`;
`patchTags` is the key set of the map of the source. -/
structure Collected where
  releaseTags : List String
  patchTags : List String
  deriving DecidableEq, Repr

/-- The loop of `GetReleases` over the tags of one page (lines 335-349).
`VersionCmp` is the function `build.VersionCmp` of the Sia library. -/
def collectTags (VersionCmp : String → String → Int) (minVersion : String) :
    List TagData → Collected → Collected
  | [], acc => acc
  | t :: ts, acc =>
    let tag := t.name
    let tagNums := TrimLeftV tag
    let minVersionNums := TrimLeftV minVersion
    let releaseTags :=
      if t.release = true ∧ VersionCmp tagNums minVersionNums ≥ 0 then acc.releaseTags ++ [tag]
      else acc.releaseTags
    let patchTags :=
      if HasSuffix tag antfarmTagSuffix then tag :: acc.patchTags else acc.patchTags
    collectTags VersionCmp minVersion ts { releaseTags := releaseTags, patchTags := patchTags }

/-- The loop of `GetReleases` over the pages (lines 328-350); a page is the
decoded slice of tags, or the error of `json.Unmarshal`. -/
def collectBodies (VersionCmp : String → String → Int) (minVersion : String) :
    List (Except Error (List TagData)) → Collected → Except Error Collected
  | [], acc => .ok acc
  | body :: bodies, acc =>
    match body with
    | .error err => .error (AddContext err "can't decode tags response from Gitlab")
    | .ok tags =>
      collectBodies VersionCmp minVersion bodies (collectTags VersionCmp minVersion tags acc)

/-- The call `sort.Sort(bySemanticVersion(releaseTags))`, where
`Less(i, j)` is `build.VersionCmp(s[i], s[j]) < 0` (lines 489-502): the tags
rearranged so that no tag is followed by one that is `Less` than it. -/
def sortBySemanticVersion (VersionCmp : String → String → Int) (releaseTags : List String) :
    List String :=
  releaseTags.insertionSort fun a b => ¬ VersionCmp b a < 0

/-- The workaround for v1.5.5 of `GetReleases` (lines 355-378): going through
the tags, stop if the tag is v1.5.5 (found); insert v1.5.5 before the first tag
it is less than (inserted); otherwise append it as the last release. -/
def insertV155 (VersionCmp : String → String → Int) : List String → List String
  | [] => ["v1.5.5"]
  | t :: ts =>
    if t = "v1.5.5" then t :: ts
    else if VersionCmp "v1.5.5" t < 0 then "v1.5.5" :: t :: ts
    else t :: insertV155 VersionCmp ts

/-- The last loop of `GetReleases` (lines 380-387): a release tag is replaced by
its patch tag if there is one. -/
def replaceByPatchTags (patchTags releaseTags : List String) : List String :=
  releaseTags.map fun r =>
    if r ++ antfarmTagSuffix ∈ patchTags then r ++ antfarmTagSuffix else r

/-- The function `GetReleases` (`build_binaries.go`, lines 318-390). `bodies`
is the answer of `querySiaRepoAPI("repository/tags")`. -/
def GetReleases (VersionCmp : String → String → Int)
    (bodies : Except Error (List (Except Error (List TagData)))) (minVersion : String) :
    Except Error (List String) :=
  match bodies with
  | .error err => .error (AddContext err "can't get Sia tags from Gitlab")
  | .ok bodies =>
    match collectBodies VersionCmp minVersion bodies { releaseTags := [], patchTags := [] } with
    | .error err => .error err
    | .ok c =>
      .ok (replaceByPatchTags c.patchTags
        (insertV155 VersionCmp (sortBySemanticVersion VersionCmp c.releaseTags)))

/-! ### A concrete version comparison for the examples -/

/-- The dot-separated components of a version string. -/
def splitDots : List Char → List (List Char)
  | [] => [[]]
  | c :: cs =>
    if c = '.' then [] :: splitDots cs
    else
      match splitDots cs with
      | [] => [[c]]
      | w :: ws => (c :: w) :: ws

/-- The number a component stands for; a component that is not a decimal
number counts as 0. -/
def componentNum (cs : List Char) : Nat :=
  if cs ≠ [] ∧ cs.all Char.isDigit then cs.foldl (fun n c => 10 * n + (c.toNat - 48)) 0 else 0

/-- The comparison of two lists of numbers, component by component; of two
lists equal on their shared components the shorter is the smaller. -/
def cmpNums : List Nat → List Nat → Int
  | [], [] => 0
  | [], _ :: _ => -1
  | _ :: _, [] => 1
  | x :: xs, y :: ys => if x < y then -1 else if y < x then 1 else cmpNums xs ys

/-- A version comparison in the manner of `build.VersionCmp`, a function of the
Sia library that is not among the sources: -1, 0 or 1 as the dot-separated
components of `a`, read as numbers, are below, equal to or above those of `b`.
It is the comparison used in the examples; the theorems about `GetReleases`
hold for any comparison. -/
def exampleVersionCmp (a b : String) : Int :=
  cmpNums ((splitDots a.data).map componentNum) ((splitDots b.data).map componentNum)

end AntFarm

/-! # Theorems -/

namespace AntFarm

/-! ## Balance maintainer -/

theorem Currency.cmp_pos_iff (b t : Nat) : Currency.Cmp b t > 0 ↔ t < b := by
  unfold Currency.Cmp Currency
  split_ifs <;> omega

/-- After an iteration whose wallet query succeeded with balance `b`, the
variable `minerRunning` is `true` exactly when `b ≤ t`. -/
theorem pollIteration_state (t b : Currency) (s : Bool) (p : Poll)
    (hw : p.walletGet = some b) :
    (pollIteration t s p).minerRunning = decide (b ≤ t) := by
  unfold pollIteration
  rw [hw]
  by_cases h : t < b
  · have h2 : ¬ b ≤ t := Nat.not_le.mpr h
    cases s <;> cases hc : p.minerCmdOk <;> simp [Currency.cmp_pos_iff, h, h2, hc]
  · have h2 : b ≤ t := Nat.not_lt.mp h
    cases s <;> cases hc : p.minerCmdOk <;> simp [Currency.cmp_pos_iff, h, h2, hc]

/-- Every iteration ends in a `select`, and returns exactly when that `select`
takes the stop case. -/
theorem pollIteration_ends_in_select (t : Currency) (s : Bool) (p : Poll) :
    (pollIteration t s p).returned = p.stop ∧
    ∃ pre d, (pollIteration t s p).events = pre ++ [Event.selectWait d p.stop] := by
  unfold pollIteration
  cases hw : p.walletGet with
  | none => exact ⟨rfl, [_, _], _, rfl⟩
  | some b =>
    simp only
    split_ifs
    all_goals refine ⟨rfl, ?_⟩
    · exact ⟨[_, _, _], _, rfl⟩
    · exact ⟨[_, _, _, _], _, rfl⟩
    · exact ⟨[_, _, _], _, rfl⟩
    · exact ⟨[_, _, _, _], _, rfl⟩
    · exact ⟨[_], _, rfl⟩

/-- Every iteration begins with the wallet balance query. -/
theorem pollIteration_begins_with_walletGet (t : Currency) (s : Bool) (p : Poll) :
    ∃ ok rest, (pollIteration t s p).events = Event.call .WalletGet ok :: rest := by
  unfold pollIteration
  cases hw : p.walletGet with
  | none => exact ⟨_, _, rfl⟩
  | some b =>
    simp only
    split_ifs
    all_goals exact ⟨_, _, rfl⟩

theorem pollLoop_cons (t : Currency) (s : Bool) (p : Poll) (ps : List Poll) :
    pollLoop t s (p :: ps) =
      pollIteration t s p ::
        (if (pollIteration t s p).returned then []
         else pollLoop t (pollIteration t s p).minerRunning ps) := rfl

theorem pollLoop_eq_nil (t : Currency) (s : Bool) (ps : List Poll) :
    pollLoop t s ps = [] ↔ ps = [] := by
  cases ps with
  | nil => simp [pollLoop]
  | cons p ps => simp [pollLoop_cons]

theorem loopReturned_cons (r : StepResult) (rest : List StepResult) :
    loopReturned (r :: rest) = if rest = [] then r.returned else loopReturned rest := by
  cases rest with
  | nil => simp [loopReturned]
  | cons r2 rest => simp [loopReturned, List.getLast?_cons_cons]

/-- The loop returns exactly when some `select` of the run takes the stop case. -/
theorem loopReturned_pollLoop (t : Currency) (ps : List Poll) :
    ∀ s : Bool, loopReturned (pollLoop t s ps) = true ↔ ∃ p ∈ ps, p.stop = true := by
  induction ps with
  | nil => intro s; simp [pollLoop, loopReturned]
  | cons p ps ih =>
    intro s
    rw [pollLoop_cons, loopReturned_cons]
    have hret := (pollIteration_ends_in_select t s p).1
    cases hstop : p.stop with
    | true => simp [hret, hstop]
    | false =>
      rw [hret, hstop]
      simp only [Bool.false_eq_true, if_false, pollLoop_eq_nil]
      split_ifs with hps
      · subst hps; simp [hstop]
      · rw [ih]; simp [hstop]

/-- While no `select` takes the stop case, one iteration is executed per answer. -/
theorem pollLoop_length_of_no_stop (t : Currency) (ps : List Poll) :
    ∀ s : Bool, (∀ p ∈ ps, p.stop = false) → (pollLoop t s ps).length = ps.length := by
  induction ps with
  | nil => intro s _; rfl
  | cons p ps ih =>
    intro s h
    have hret := (pollIteration_ends_in_select t s p).1
    have hp : p.stop = false := h p (List.mem_cons_self _ _)
    rw [pollLoop_cons, hret, hp]
    simp only [Bool.false_eq_true, if_false, List.length_cons]
    rw [ih _ (fun q hq => h q (List.mem_cons_of_mem _ hq))]

/-- When the loop returns, its last event is a `select` that took the stop case. -/
theorem loopEvents_end_of_returned (t : Currency) (ps : List Poll) :
    ∀ s : Bool, loopReturned (pollLoop t s ps) = true →
      ∃ pre d, loopEvents (pollLoop t s ps) = pre ++ [Event.selectWait d true] := by
  induction ps with
  | nil => intro s h; simp [pollLoop, loopReturned] at h
  | cons p ps ih =>
    intro s h
    rw [pollLoop_cons, loopReturned_cons] at h
    rw [pollLoop_cons]
    obtain ⟨hret, pre, d, hev⟩ := pollIteration_ends_in_select t s p
    cases hstop : p.stop with
    | true =>
      refine ⟨pre, d, ?_⟩
      simp [loopEvents, hret, hstop, hev]
    | false =>
      rw [hret, hstop] at h ⊢
      simp only [Bool.false_eq_true, if_false] at h ⊢
      split_ifs at h with hnil
      obtain ⟨pre2, d2, h2⟩ := ih _ h
      refine ⟨(pollIteration t s p).events ++ pre2, d2, ?_⟩
      simp only [loopEvents, List.map_cons, List.flatten_cons] at h2 ⊢
      rw [h2, List.append_assoc]

/-- With every call succeeding and no stop, iteration `i` is the loop body run
from the state left by iteration `i - 1` (the starting state for `i = 0`). -/
theorem pollLoop_okPolls_step (t : Currency) (bs : List Currency) :
    ∀ (s : Bool) (i : Nat) (b : Currency), bs[i]? = some b →
      ∃ before, (s :: (pollLoop t s (okPolls bs)).map StepResult.minerRunning)[i]? = some before ∧
        (pollLoop t s (okPolls bs))[i]? = some (pollIteration t before ⟨some b, true, false⟩) := by
  induction bs with
  | nil => intro s i b h; simp at h
  | cons b0 bs ih =>
    intro s i b h
    have hcons : okPolls (b0 :: bs) = ⟨some b0, true, false⟩ :: okPolls bs := rfl
    have hret := (pollIteration_ends_in_select t s ⟨some b0, true, false⟩).1
    rw [hcons, pollLoop_cons, hret]
    simp only [Bool.false_eq_true, if_false]
    cases i with
    | zero =>
      simp only [List.getElem?_cons_zero, Option.some.injEq] at h
      subst h
      exact ⟨s, by simp, by simp⟩
    | succ i =>
      simp only [List.getElem?_cons_succ] at h
      obtain ⟨before, h1, h2⟩ := ih (pollIteration t s ⟨some b0, true, false⟩).minerRunning i b h
      exact ⟨before, by simpa using h1, by simpa using h2⟩

theorem pollLoop_okPolls_length (t : Currency) (bs : List Currency) (s : Bool) :
    (pollLoop t s (okPolls bs)).length = bs.length := by
  rw [pollLoop_length_of_no_stop, okPolls, List.length_map]
  intro p hp
  simp only [okPolls, List.mem_map] at hp
  obtain ⟨b, _, rfl⟩ := hp
  rfl

/-! ### One poll -/

/-- C1: in a poll whose wallet query succeeds with confirmed balance `b` against
target `t`: if `b ≤ t` and the state is off, start-miner is the one miner
command issued and, when it succeeds, it is recorded as successful and the state
becomes on; if `b > t` and the state is on, the same holds for stop-miner and
the state becomes off; in the two remaining cases no miner command is issued
and the state is unchanged. -/
theorem balanceMaintainer_poll_transitions (t b : Currency) (s : Bool) (p : Poll)
    (hw : p.walletGet = some b) :
    (b ≤ t → s = false → p.minerCmdOk = true →
      minerCommands (pollIteration t s p).events = [NodeCall.MinerStartGet] ∧
      Event.call .MinerStartGet true ∈ (pollIteration t s p).events ∧
      (pollIteration t s p).minerRunning = true) ∧
    (t < b → s = true → p.minerCmdOk = true →
      minerCommands (pollIteration t s p).events = [NodeCall.MinerStopGet] ∧
      Event.call .MinerStopGet true ∈ (pollIteration t s p).events ∧
      (pollIteration t s p).minerRunning = false) ∧
    (b ≤ t → s = true →
      minerCommands (pollIteration t s p).events = [] ∧
      (pollIteration t s p).minerRunning = s) ∧
    (t < b → s = false →
      minerCommands (pollIteration t s p).events = [] ∧
      (pollIteration t s p).minerRunning = s) := by
  refine ⟨?_, ?_, ?_, ?_⟩
  · intro hb hs hc
    have h2 : ¬ t < b := Nat.not_lt.mpr hb
    subst hs
    simp [pollIteration, hw, hc, Currency.cmp_pos_iff, h2, minerCommands]
  · intro hb hs hc
    subst hs
    simp [pollIteration, hw, hc, Currency.cmp_pos_iff, hb, minerCommands]
  · intro hb hs
    have h2 : ¬ t < b := Nat.not_lt.mpr hb
    subst hs
    simp [pollIteration, hw, Currency.cmp_pos_iff, h2, minerCommands]
  · intro hb hs
    subst hs
    simp [pollIteration, hw, Currency.cmp_pos_iff, hb, minerCommands]

/-- Witness of C1: target 10, state off, balance 3, every call succeeding. -/
theorem balanceMaintainer_poll_transitions_witness :
    (⟨some 3, true, false⟩ : Poll).walletGet = some 3 ∧
    minerCommands (pollIteration 10 false ⟨some 3, true, false⟩).events
      = [NodeCall.MinerStartGet] ∧
    (pollIteration 10 false ⟨some 3, true, false⟩).minerRunning = true :=
  ⟨rfl,
    ((balanceMaintainer_poll_transitions 10 3 false ⟨some 3, true, false⟩ rfl).1
      (by decide) rfl rfl).1,
    ((balanceMaintainer_poll_transitions 10 3 false ⟨some 3, true, false⟩ rfl).1
      (by decide) rfl rfl).2.2⟩

/-! ### A sequence of polls -/

/-- C2: for every finite sequence of balances polled with every API call
succeeding, one iteration runs per balance and, at each poll `i` with balance
`b`, from the state `before` left by the previous poll (on, before the first):
the state after the poll is on iff `b ≤ t`; the state toggles exactly when `b`
lies on the other side of the target than `before`; a miner command is issued
exactly when the state toggles; and the state does not toggle when the previous
poll's balance was on the same side of the target. -/
theorem balanceMaintainer_toggles_at_crossings (t : Currency) (bs : List Currency)
    (m : Bool) (i : Nat) (b : Currency) (hb : bs[i]? = some b) :
    (balanceMaintainer ⟨true, true, m, true, okPolls bs⟩ t).steps.length = bs.length ∧
    ∃ before after step,
      (true :: (balanceMaintainer ⟨true, true, m, true, okPolls bs⟩ t).statesAfter)[i]?
        = some before ∧
      (balanceMaintainer ⟨true, true, m, true, okPolls bs⟩ t).statesAfter[i]? = some after ∧
      (balanceMaintainer ⟨true, true, m, true, okPolls bs⟩ t).steps[i]? = some step ∧
      after = decide (b ≤ t) ∧
      (after ≠ before ↔ (before = true ∧ t < b) ∨ (before = false ∧ b ≤ t)) ∧
      (minerCommands step.events ≠ [] ↔ after ≠ before) ∧
      (∀ j b0, i = j + 1 → bs[j]? = some b0 → (b0 ≤ t ↔ b ≤ t) → after = before) := by
  have hsteps : (balanceMaintainer ⟨true, true, m, true, okPolls bs⟩ t).steps
      = pollLoop t true (okPolls bs) := by
    simp [balanceMaintainer]
  simp only [JobRun.statesAfter, hsteps]
  refine ⟨pollLoop_okPolls_length t bs true, ?_⟩
  obtain ⟨before, h1, h2⟩ := pollLoop_okPolls_step t bs true i b hb
  have hafter : (pollIteration t before ⟨some b, true, false⟩).minerRunning = decide (b ≤ t) :=
    pollIteration_state t b before _ rfl
  refine ⟨before, decide (b ≤ t), _, h1, ?_, h2, rfl, ?_, ?_, ?_⟩
  · rw [List.getElem?_map, h2]
    simp [hafter]
  · by_cases h : b ≤ t
    · have h3 : ¬ t < b := Nat.not_lt.mpr h
      cases before <;> simp [h, h3]
    · have h3 : t < b := Nat.not_le.mp h
      cases before <;> simp [h, h3]
  · by_cases h : b ≤ t
    · have h3 : ¬ t < b := Nat.not_lt.mpr h
      cases before <;> simp [pollIteration, Currency.cmp_pos_iff, h, h3, minerCommands]
    · have h3 : t < b := Nat.not_le.mp h
      cases before <;> simp [pollIteration, Currency.cmp_pos_iff, h, h3, minerCommands]
  · intro j b0 hij hb0 hside
    subst hij
    obtain ⟨before0, _, h5⟩ := pollLoop_okPolls_step t bs true j b0 hb0
    have h6 : ((pollLoop t true (okPolls bs)).map StepResult.minerRunning)[j]?
        = some (decide (b0 ≤ t)) := by
      rw [List.getElem?_map, h5]
      simp [pollIteration_state t b0 before0 ⟨some b0, true, false⟩ rfl]
    rw [List.getElem?_cons_succ, h6] at h1
    simp only [Option.some.injEq] at h1
    rw [← h1]
    simp [hside]

/-- Witness of C2: target 10, balances 1, 5, 11, 12, 3; the poll of index 2
(balance 11) is a crossing. -/
theorem balanceMaintainer_toggles_at_crossings_witness :
    ([1, 5, 11, 12, 3] : List Currency)[2]? = some 11 ∧
    (balanceMaintainer ⟨true, true, false, true, okPolls [1, 5, 11, 12, 3]⟩ 10).steps.length
      = 5 :=
  ⟨rfl, (balanceMaintainer_toggles_at_crossings 10 [1, 5, 11, 12, 3] false 2 11 rfl).1⟩

/-! ### The start of the job -/

/-- C3, counterexample: on a node whose miner is off when the job starts
(barrier passed, first start-miner succeeding, one poll at balance 3 against
target 10), the job enters its loop in state on, and start-miner is issued
before the first balance poll. -/
theorem balanceMaintainer_initial_state_not_queried :
    (⟨true, true, false, true, [⟨some 3, true, false⟩]⟩ : JobEnv).minerOnAtStart = false ∧
    (balanceMaintainer ⟨true, true, false, true, [⟨some 3, true, false⟩]⟩ 10).initialState
      = some true ∧
    minerCommands (beforeFirstPoll
      (balanceMaintainer ⟨true, true, false, true, [⟨some 3, true, false⟩]⟩ 10).events)
      = [NodeCall.MinerStartGet] := by
  decide

/-- C3, amended: whenever the job has passed the barrier, what precedes its
first balance poll is exactly entering the work group, the barrier wait and one
start-miner command; when that command succeeds the loop is entered in state
on, whatever the run state of the node's miner at job start. -/
theorem balanceMaintainer_starts_miner_before_first_poll (env : JobEnv) (t : Currency)
    (hadd : env.addOk = true) (hsync : env.synced = true) (hstart : env.firstStartOk = true) :
    (balanceMaintainer env t).initialState = some true ∧
    beforeFirstPoll (balanceMaintainer env t).events
      = [Event.tgAdd true, Event.waitForAntsSync true, Event.call .MinerStartGet true] := by
  constructor
  · simp [balanceMaintainer, hadd, hsync, hstart]
  · cases hp : env.polls with
    | nil => simp [balanceMaintainer, hadd, hsync, hstart, hp, pollLoop, loopEvents,
        loopReturned, beforeFirstPoll, Event.isWalletGet]
    | cons p ps =>
      obtain ⟨ok, rest, hev⟩ := pollIteration_begins_with_walletGet t true p
      simp [balanceMaintainer, hadd, hsync, hstart, hp, pollLoop_cons, loopEvents,
        beforeFirstPoll, Event.isWalletGet, hev, List.takeWhile]

/-- Witness of C3 amended: a node whose miner is off, one poll at balance 3. -/
theorem balanceMaintainer_starts_miner_before_first_poll_witness :
    (⟨true, true, false, true, [⟨some 3, true, false⟩]⟩ : JobEnv).addOk = true ∧
    (balanceMaintainer ⟨true, true, false, true, [⟨some 3, true, false⟩]⟩ 10).initialState
      = some true :=
  ⟨rfl, (balanceMaintainer_starts_miner_before_first_poll
    ⟨true, true, false, true, [⟨some 3, true, false⟩]⟩ 10 rfl rfl rfl).1⟩

/-! ### Failed calls -/

/-- C4, the code at the failing inputs, target 10. First run: the first poll
(balance 20) stops the miner; in the second poll (balance 3) start-miner fails,
yet the state goes from off to on; the third poll (balance 3, still not above
the target) therefore issues no miner command: the failed start is not retried.
Second run: in the first poll (balance 20) stop-miner fails, yet the state goes
from on to off, and the second poll (balance 20) issues no miner command. -/
theorem balanceMaintainer_failed_command_changes_state :
    (balanceMaintainer ⟨true, true, false, true,
        [⟨some 20, true, false⟩, ⟨some 3, false, false⟩, ⟨some 3, true, false⟩]⟩ 10).statesAfter
      = [false, true, true] ∧
    (balanceMaintainer ⟨true, true, false, true,
        [⟨some 20, true, false⟩, ⟨some 3, false, false⟩, ⟨some 3, true, false⟩]⟩ 10).steps.map
        StepResult.events
      = [[.call .WalletGet true, .logLine .minedEnoughCurrency, .call .MinerStopGet true,
            .selectWait 20 false],
         [.call .WalletGet true, .logLine .notEnoughCurrency, .call .MinerStartGet false,
            .logLine .cantStartMiner, .selectWait 5 false],
         [.call .WalletGet true, .selectWait 20 false]] ∧
    (balanceMaintainer ⟨true, true, true, true,
        [⟨some 20, false, false⟩, ⟨some 20, true, false⟩]⟩ 10).initialState = some true ∧
    (balanceMaintainer ⟨true, true, true, true,
        [⟨some 20, false, false⟩, ⟨some 20, true, false⟩]⟩ 10).statesAfter
      = [false, false] ∧
    (balanceMaintainer ⟨true, true, true, true,
        [⟨some 20, false, false⟩, ⟨some 20, true, false⟩]⟩ 10).steps.map StepResult.events
      = [[.call .WalletGet true, .logLine .minedEnoughCurrency, .call .MinerStopGet false,
            .logLine .cantStopMiner, .selectWait 5 false],
         [.call .WalletGet true, .selectWait 20 false]] := by
  decide

/-- In a poll whose wallet query succeeds, the state after the poll does not
depend on whether the miner command succeeded; in a poll whose wallet query
fails, the state is unchanged. -/
theorem pollIteration_state_ignores_command_result (t : Currency) (s : Bool) (p : Poll) :
    (pollIteration t s p).minerRunning
      = (pollIteration t s { p with minerCmdOk := true }).minerRunning ∧
    (p.walletGet = none → (pollIteration t s p).minerRunning = s) := by
  constructor
  · cases hw : p.walletGet with
    | none => simp [pollIteration, hw]
    | some b =>
      rw [pollIteration_state t b s p hw, pollIteration_state t b s _ rfl]
  · intro hw
    simp [pollIteration, hw]

/-- C5, counterexample: with the barrier passed and stop never signalled, a
failed first start-miner makes the job return. -/
theorem balanceMaintainer_returns_on_failed_first_start :
    (balanceMaintainer ⟨true, true, false, false, [⟨some 3, true, false⟩]⟩ 10).returned = true ∧
    (balanceMaintainer ⟨true, true, false, false, [⟨some 3, true, false⟩]⟩ 10).events
      = [.tgAdd true, .waitForAntsSync true, .call .MinerStartGet false,
          .logLine .cantStartMinerAtStart, .tgDone] ∧
    (balanceMaintainer ⟨true, true, false, false, [⟨some 3, true, false⟩]⟩ 10).events.any
      Event.isStopObserved = false := by
  decide

/-- C5, amended: once the job has passed the barrier, a failed first start-miner
makes it return before any poll; once that first command has succeeded, the job
returns exactly when some wait observes the stop signal, whatever the results
of the wallet queries and miner commands: with no stop it runs one iteration
per answer and has not returned, and when it has returned its last events are
a wait that took the stop case and the deferred Done. -/
theorem balanceMaintainer_loop_returns_only_on_stop (env : JobEnv) (t : Currency)
    (hadd : env.addOk = true) (hsync : env.synced = true) :
    (env.firstStartOk = false →
      (balanceMaintainer env t).returned = true ∧ (balanceMaintainer env t).steps = []) ∧
    (env.firstStartOk = true →
      ((balanceMaintainer env t).returned = true ↔ ∃ p ∈ env.polls, p.stop = true) ∧
      ((∀ p ∈ env.polls, p.stop = false) →
        (balanceMaintainer env t).returned = false ∧
        (balanceMaintainer env t).steps.length = env.polls.length) ∧
      ((balanceMaintainer env t).returned = true →
        ∃ pre d, (balanceMaintainer env t).events
          = pre ++ [Event.selectWait d true, Event.tgDone])) := by
  constructor
  · intro hstart
    simp [balanceMaintainer, hadd, hsync, hstart]
  · intro hstart
    have hret : (balanceMaintainer env t).returned = loopReturned (pollLoop t true env.polls) := by
      simp [balanceMaintainer, hadd, hsync, hstart]
    have hsteps : (balanceMaintainer env t).steps = pollLoop t true env.polls := by
      simp [balanceMaintainer, hadd, hsync, hstart]
    refine ⟨?_, ?_, ?_⟩
    · rw [hret]
      exact loopReturned_pollLoop t env.polls true
    · intro hno
      rw [hret, hsteps]
      refine ⟨?_, pollLoop_length_of_no_stop t env.polls true hno⟩
      cases h : loopReturned (pollLoop t true env.polls) with
      | false => rfl
      | true =>
        obtain ⟨p, hp, hs⟩ := (loopReturned_pollLoop t env.polls true).mp h
        rw [hno p hp] at hs
        exact absurd hs (by decide)
    · intro h
      rw [hret] at h
      obtain ⟨pre, d, hev⟩ := loopEvents_end_of_returned t env.polls true h
      refine ⟨[Event.tgAdd true, Event.waitForAntsSync true, Event.call .MinerStartGet true]
        ++ pre, d, ?_⟩
      simp [balanceMaintainer, hadd, hsync, hstart, h, hev]

/-- Witness of C5 amended: first start succeeding, a failed wallet query, a
failed stop-miner, then a wait that observes the stop signal. -/
theorem balanceMaintainer_loop_returns_only_on_stop_witness :
    (⟨true, true, false, true,
        [⟨none, true, false⟩, ⟨some 20, false, false⟩, ⟨some 3, true, true⟩]⟩ : JobEnv).addOk
      = true ∧
    ((balanceMaintainer ⟨true, true, false, true,
        [⟨none, true, false⟩, ⟨some 20, false, false⟩, ⟨some 3, true, true⟩]⟩ 10).returned = true ↔
      ∃ p ∈ [(⟨none, true, false⟩ : Poll), ⟨some 20, false, false⟩, ⟨some 3, true, true⟩],
        p.stop = true) :=
  ⟨rfl, ((balanceMaintainer_loop_returns_only_on_stop
    ⟨true, true, false, true,
      [⟨none, true, false⟩, ⟨some 20, false, false⟩, ⟨some 3, true, true⟩]⟩ 10 rfl rfl).2 rfl).1⟩

/-! ## Job runner -/

/-- Every recorded call carries the answer of the client to that call. -/
theorem newJobRunner_calls_answers (c : Client) (ant : Ant) (a pw d seed : String) :
    ∀ x ∈ (newJobRunner c ant a pw d seed).calls, x.2 = c.succeeds x.1 := by
  unfold newJobRunner
  split
  · simp
  · split
    · next e hg => simp [Client.succeeds, hg, Except.toOption]
    · next wg hg =>
      split_ifs with h1 h2
      · split
        · next e hi => simp [Client.succeeds, hg, hi, Except.toOption]
        · next wp hi =>
          simp only
          split
          · next e hu => simp [Client.succeeds, hg, hi, hu, Except.toOption]
          · next hu => simp [Client.succeeds, hg, hi, hu, Except.toOption]
      · split
        · next e hi => simp [Client.succeeds, hg, hi, Except.toOption]
        · next hi =>
          simp only
          split
          · next e hu => simp [Client.succeeds, hg, hi, hu, Except.toOption]
          · next hu => simp [Client.succeeds, hg, hi, hu, Except.toOption]
      · simp only
        split
        · next e hu => simp [Client.succeeds, hg, hu, Except.toOption]
        · next hu => simp [Client.succeeds, hg, hu, Except.toOption]

/-- The returned pointer is nil exactly when the returned error is not. -/
theorem newJobRunner_runner_none_iff (c : Client) (ant : Ant) (a pw d seed : String) :
    (newJobRunner c ant a pw d seed).runner = none ↔
      (newJobRunner c ant a pw d seed).err ≠ none := by
  unfold newJobRunner
  split
  · simp
  · split
    · simp
    · split_ifs <;> (try split) <;> (try simp only) <;> (try split) <;> simp

/-- C9: a nil runner comes with a non-nil error and a non-nil runner with a nil
error; a run in which some call failed returns a nil runner and a non-nil
error, the failed call being the last one issued and every earlier one having
succeeded; a run that returns a nil runner either failed on the client options
before any call or failed on its last call; a non-nil runner is returned only
when every issued call succeeded. The recorded results are the answers of the
client. -/
theorem newJobRunner_failure_is_fatal (c : Client) (ant : Ant) (a pw d seed : String) :
    ((newJobRunner c ant a pw d seed).runner = none ↔
      (newJobRunner c ant a pw d seed).err ≠ none) ∧
    (∀ x ∈ (newJobRunner c ant a pw d seed).calls, x.2 = c.succeeds x.1) ∧
    ((∃ x ∈ (newJobRunner c ant a pw d seed).calls, x.2 = false) →
      (newJobRunner c ant a pw d seed).runner = none ∧
      (newJobRunner c ant a pw d seed).err ≠ none ∧
      ∃ pre call, (newJobRunner c ant a pw d seed).calls = pre ++ [(call, false)] ∧
        ∀ y ∈ pre, y.2 = true) ∧
    ((newJobRunner c ant a pw d seed).runner = none →
      (newJobRunner c ant a pw d seed).calls = [] ∨
      ∃ pre call, (newJobRunner c ant a pw d seed).calls = pre ++ [(call, false)] ∧
        ∀ y ∈ pre, y.2 = true) ∧
    ((newJobRunner c ant a pw d seed).runner ≠ none →
      ∀ x ∈ (newJobRunner c ant a pw d seed).calls, x.2 = true) := by
  refine ⟨newJobRunner_runner_none_iff c ant a pw d seed,
    newJobRunner_calls_answers c ant a pw d seed, ?_, ?_, ?_⟩
  · unfold newJobRunner
    split
    · simp
    · split
      · intro _
        exact ⟨rfl, by simp, [], _, rfl, by simp⟩
      · split_ifs
        · split
          · intro _
            exact ⟨rfl, by simp, [_], _, rfl, by simp⟩
          · simp only
            split
            · intro _
              exact ⟨rfl, by simp, [_, _], _, rfl, by simp⟩
            · simp
        · split
          · intro _
            exact ⟨rfl, by simp, [_], _, rfl, by simp⟩
          · simp only
            split
            · intro _
              exact ⟨rfl, by simp, [_, _], _, rfl, by simp⟩
            · simp
        · simp only
          split
          · intro _
            exact ⟨rfl, by simp, [_], _, rfl, by simp⟩
          · simp
  · unfold newJobRunner
    split
    · simp
    · split
      · intro _
        exact Or.inr ⟨[], _, rfl, by simp⟩
      · split_ifs
        · split
          · intro _
            exact Or.inr ⟨[_], _, rfl, by simp⟩
          · simp only
            split
            · intro _
              exact Or.inr ⟨[_, _], _, rfl, by simp⟩
            · simp
        · split
          · intro _
            exact Or.inr ⟨[_], _, rfl, by simp⟩
          · simp only
            split
            · intro _
              exact Or.inr ⟨[_, _], _, rfl, by simp⟩
            · simp
        · simp only
          split
          · intro _
            exact Or.inr ⟨[_], _, rfl, by simp⟩
          · simp
  · unfold newJobRunner
    split
    · simp
    · split
      · simp
      · split_ifs <;> (try split) <;> (try simp only) <;> (try split) <;> simp

/-- C6, counterexample: on a node that reports its wallet encrypted, with no
seed supplied, `WalletInitPost` is issued right after the wallet query (the
node refuses it and no runner is returned). -/
theorem newJobRunner_inits_encrypted_wallet_without_seed :
    encryptedNode.WalletGet = .ok { Encrypted := true } ∧
    (newJobRunner encryptedNode exampleAnt "127.0.0.1:9980" "pw" "ant-data" "").calls
      = [(.WalletGet, true), (.WalletInitPost "" false, false)] ∧
    (newJobRunner encryptedNode exampleAnt "127.0.0.1:9980" "pw" "ant-data" "").runner = none :=
  ⟨rfl, by decide, by decide⟩

/-- C6, amended: when the node reports the wallet encrypted and a non-empty seed
is supplied, the calls issued are exactly the wallet query and the unlock with
that seed, so neither `WalletInitPost` nor `WalletInitSeedPost` is issued; when
the supplied seed is empty, `WalletInitPost` is issued right after the wallet
query although the wallet is reported encrypted. -/
theorem newJobRunner_skips_init_when_encrypted_with_seed (c : Client) (ant : Ant)
    (a pw d seed : String) (opt : Options) (wg : WalletGET)
    (hd : c.DefaultOptions = .ok opt) (hg : c.WalletGet = .ok wg)
    (henc : wg.Encrypted = true) :
    (seed ≠ "" →
      (newJobRunner c ant a pw d seed).issued = [.WalletGet, .WalletUnlockPost seed] ∧
      ∀ x ∈ (newJobRunner c ant a pw d seed).issued, x.isInit = false) ∧
    (seed = "" →
      ∃ ok rest, (newJobRunner c ant a pw d seed).calls
        = (.WalletGet, true) :: (.WalletInitPost "" false, ok) :: rest) := by
  constructor
  · intro hs
    cases hu : c.WalletUnlockPost seed <;>
      simp [newJobRunner, RunnerResult.issued, hd, hg, henc, hs, hu, WalletCall.isInit]
  · intro hs
    cases hi : c.WalletInitPost "" false with
    | error e => simp [newJobRunner, hd, hg, hs, hi]
    | ok wp =>
      cases hu : c.WalletUnlockPost wp.PrimarySeed <;>
        simp [newJobRunner, hd, hg, hs, hi, hu]

/-- Witness of C6 amended: the encrypted node with the seed "kept seed". -/
theorem newJobRunner_skips_init_when_encrypted_with_seed_witness :
    encryptedNode.WalletGet = .ok { Encrypted := true } ∧
    (newJobRunner encryptedNode exampleAnt "127.0.0.1:9980" "pw" "ant-data" "kept seed").issued
      = [.WalletGet, .WalletUnlockPost "kept seed"] :=
  ⟨rfl, ((newJobRunner_skips_init_when_encrypted_with_seed encryptedNode exampleAnt
    "127.0.0.1:9980" "pw" "ant-data" "kept seed" _ _ rfl rfl rfl).1 (by decide)).1⟩

/-- C7: whenever `newJobRunner` returns a runner, the error is nil and the
runner's `StaticWalletSeed` is the resolved seed: with an empty
`existingWalletSeed`, `WalletInitPost` was issued and succeeded and the seed is
the `PrimarySeed` it returned; with a non-empty one, the seed is
`existingWalletSeed` and `WalletInitSeedPost(existingWalletSeed)` is issued
exactly when the wallet is reported unencrypted. -/
theorem newJobRunner_resolved_seed (c : Client) (ant : Ant) (a pw d seed : String)
    (jr : JobRunner) (hr : (newJobRunner c ant a pw d seed).runner = some jr) :
    (newJobRunner c ant a pw d seed).err = none ∧
    (seed = "" →
      ∃ wp, c.WalletInitPost "" false = .ok wp ∧
        jr.StaticWalletSeed = wp.PrimarySeed ∧
        (newJobRunner c ant a pw d seed).issued
          = [.WalletGet, .WalletInitPost "" false, .WalletUnlockPost wp.PrimarySeed]) ∧
    (seed ≠ "" →
      jr.StaticWalletSeed = seed ∧
      ∃ wg, c.WalletGet = .ok wg ∧
        (.WalletInitSeedPost seed "" false ∈ (newJobRunner c ant a pw d seed).issued
          ↔ wg.Encrypted = false) ∧
        (newJobRunner c ant a pw d seed).issued
          = if wg.Encrypted then [.WalletGet, .WalletUnlockPost seed]
            else [.WalletGet, .WalletInitSeedPost seed "" false, .WalletUnlockPost seed]) := by
  cases hd : c.DefaultOptions with
  | error e => simp [newJobRunner, hd] at hr
  | ok opt =>
    cases hg : c.WalletGet with
    | error e => simp [newJobRunner, hd, hg] at hr
    | ok wg =>
      by_cases hs : seed = ""
      · cases hi : c.WalletInitPost "" false with
        | error e => simp [newJobRunner, hd, hg, hs, hi] at hr
        | ok wp =>
          cases hu : c.WalletUnlockPost wp.PrimarySeed with
          | some e => simp [newJobRunner, hd, hg, hs, hi, hu] at hr
          | none =>
            simp only [newJobRunner, hd, hg, hs, hi, hu, if_true, Option.some.injEq] at hr
            subst hr
            simp [newJobRunner, RunnerResult.issued, hd, hg, hs, hi, hu]
      · cases henc : wg.Encrypted with
        | false =>
          cases hi : c.WalletInitSeedPost seed "" false with
          | some e => simp [newJobRunner, hd, hg, hs, henc, hi] at hr
          | none =>
            cases hu : c.WalletUnlockPost seed with
            | some e => simp [newJobRunner, hd, hg, hs, henc, hi, hu] at hr
            | none =>
              simp [newJobRunner, hd, hg, hs, henc, hi, hu] at hr
              subst hr
              simp [newJobRunner, RunnerResult.issued, hd, hg, hs, henc, hi, hu]
        | true =>
          cases hu : c.WalletUnlockPost seed with
          | some e => simp [newJobRunner, hd, hg, hs, henc, hu] at hr
          | none =>
            simp [newJobRunner, hd, hg, hs, henc, hu] at hr
            subst hr
            simp [newJobRunner, RunnerResult.issued, hd, hg, hs, henc, hu]

/-- Witness of C7: a fresh node and no seed supplied. -/
theorem newJobRunner_resolved_seed_witness :
    (newJobRunner freshNode exampleAnt "127.0.0.1:9980" "pw" "ant-data" "").runner
      = some { staticAnt := some exampleAnt
               staticClient := some { Address := "127.0.0.1:9980", Password := "pw" }
               StaticWalletSeed := "generated seed"
               staticDataDir := "ant-data" } ∧
    (newJobRunner freshNode exampleAnt "127.0.0.1:9980" "pw" "ant-data" "").err = none :=
  ⟨by decide, (newJobRunner_resolved_seed freshNode exampleAnt "127.0.0.1:9980" "pw"
    "ant-data" ""
    { staticAnt := some exampleAnt
      staticClient := some { Address := "127.0.0.1:9980", Password := "pw" }
      StaticWalletSeed := "generated seed"
      staticDataDir := "ant-data" } (by decide)).1⟩

/-- The shape of a run that returns a runner: the unlock with the runner's
seed succeeded and was the last call, after the wallet query and at most one
initialization; `WalletInitPost` is issued only when no seed was supplied. -/
theorem newJobRunner_success_calls (c : Client) (ant : Ant) (a pw d seed : String)
    (jr : JobRunner) (hr : (newJobRunner c ant a pw d seed).runner = some jr) :
    c.WalletUnlockPost jr.StaticWalletSeed = none ∧
    jr.staticAnt = some ant ∧
    ((seed = "" ∧ (newJobRunner c ant a pw d seed).calls
        = [(.WalletGet, true), (.WalletInitPost "" false, true),
            (.WalletUnlockPost jr.StaticWalletSeed, true)]) ∨
     (seed ≠ "" ∧ jr.StaticWalletSeed = seed ∧
        ((newJobRunner c ant a pw d seed).calls
          = [(.WalletGet, true), (.WalletInitSeedPost seed "" false, true),
              (.WalletUnlockPost jr.StaticWalletSeed, true)] ∨
         (newJobRunner c ant a pw d seed).calls
          = [(.WalletGet, true), (.WalletUnlockPost jr.StaticWalletSeed, true)]))) := by
  cases hd : c.DefaultOptions with
  | error e => simp [newJobRunner, hd] at hr
  | ok opt =>
    cases hg : c.WalletGet with
    | error e => simp [newJobRunner, hd, hg] at hr
    | ok wg =>
      by_cases hs : seed = ""
      · cases hi : c.WalletInitPost "" false with
        | error e => simp [newJobRunner, hd, hg, hs, hi] at hr
        | ok wp =>
          cases hu : c.WalletUnlockPost wp.PrimarySeed with
          | some e => simp [newJobRunner, hd, hg, hs, hi, hu] at hr
          | none =>
            simp only [newJobRunner, hd, hg, hs, hi, hu, if_true, Option.some.injEq] at hr
            subst hr
            simp [newJobRunner, hd, hg, hs, hi, hu]
      · cases henc : wg.Encrypted with
        | false =>
          cases hi : c.WalletInitSeedPost seed "" false with
          | some e => simp [newJobRunner, hd, hg, hs, henc, hi] at hr
          | none =>
            cases hu : c.WalletUnlockPost seed with
            | some e => simp [newJobRunner, hd, hg, hs, henc, hi, hu] at hr
            | none =>
              simp [newJobRunner, hd, hg, hs, henc, hi, hu] at hr
              subst hr
              simp [newJobRunner, hd, hg, hs, henc, hi, hu]
        | true =>
          cases hu : c.WalletUnlockPost seed with
          | some e => simp [newJobRunner, hd, hg, hs, henc, hu] at hr
          | none =>
            simp [newJobRunner, hd, hg, hs, henc, hu] at hr
            subst hr
            simp [newJobRunner, hd, hg, hs, henc, hu]

/-- C8: whenever `newJobRunner` returns a runner with a nil error, the last
call issued is `WalletUnlockPost` with the runner's `StaticWalletSeed`, it
succeeded, every call before it (the wallet query and any initialization) is
not an unlock, and so exactly one unlock was issued. -/
theorem newJobRunner_unlocks_once (c : Client) (ant : Ant) (a pw d seed : String)
    (jr : JobRunner) (hr : (newJobRunner c ant a pw d seed).runner = some jr)
    (_he : (newJobRunner c ant a pw d seed).err = none) :
    c.WalletUnlockPost jr.StaticWalletSeed = none ∧
    (∃ pre, (newJobRunner c ant a pw d seed).calls
        = pre ++ [(.WalletUnlockPost jr.StaticWalletSeed, true)] ∧
      ∀ x ∈ pre, x.1.isUnlock = false) ∧
    ((newJobRunner c ant a pw d seed).issued.filter WalletCall.isUnlock).length = 1 := by
  obtain ⟨hu, _, h | ⟨_, _, h | h⟩⟩ := newJobRunner_success_calls c ant a pw d seed jr hr
  · refine ⟨hu, ⟨[(.WalletGet, true), (.WalletInitPost "" false, true)], ?_, ?_⟩, ?_⟩
    · rw [h.2]; rfl
    · simp [WalletCall.isUnlock]
    · simp [RunnerResult.issued, h.2, WalletCall.isUnlock, List.filter]
  · refine ⟨hu, ⟨[(.WalletGet, true), (.WalletInitSeedPost seed "" false, true)], ?_, ?_⟩, ?_⟩
    · rw [h]; rfl
    · simp [WalletCall.isUnlock]
    · simp [RunnerResult.issued, h, WalletCall.isUnlock, List.filter]
  · refine ⟨hu, ⟨[(.WalletGet, true)], ?_, ?_⟩, ?_⟩
    · rw [h]; rfl
    · simp [WalletCall.isUnlock]
    · simp [RunnerResult.issued, h, WalletCall.isUnlock, List.filter]

/-- Witness of C8: a fresh node initialized with the supplied seed "kept seed". -/
theorem newJobRunner_unlocks_once_witness :
    (newJobRunner freshNode exampleAnt "127.0.0.1:9980" "pw" "ant-data" "kept seed").err = none ∧
    ((newJobRunner freshNode exampleAnt "127.0.0.1:9980" "pw" "ant-data"
      "kept seed").issued.filter WalletCall.isUnlock).length = 1 :=
  ⟨by decide, (newJobRunner_unlocks_once freshNode exampleAnt "127.0.0.1:9980" "pw" "ant-data"
    "kept seed"
    { staticAnt := some exampleAnt
      staticClient := some { Address := "127.0.0.1:9980", Password := "pw" }
      StaticWalletSeed := "kept seed"
      staticDataDir := "ant-data" } (by decide) (by decide)).2.2⟩

/-- C10, counterexample: on a node that answers `WalletInitPost` with an empty
primary seed, `newJobRunner` with no seed supplied succeeds with the runner
`emptySeedRunner`; re-creating that runner on a fresh node succeeds, issues
`WalletInitPost` again, and the new runner holds the newly generated seed. -/
theorem recreateJobRunner_regenerates_empty_seed :
    (newJobRunner emptySeedNode exampleAnt "127.0.0.1:9980" "pw" "ant-data" "").runner
      = some emptySeedRunner ∧
    (newJobRunner emptySeedNode exampleAnt "127.0.0.1:9980" "pw" "ant-data" "").err = none ∧
    (recreateJobRunner freshNode emptySeedRunner).map RunnerResult.err = some none ∧
    (recreateJobRunner freshNode emptySeedRunner).map RunnerResult.issued
      = some [.WalletGet, .WalletInitPost "" false, .WalletUnlockPost "generated seed"] ∧
    (recreateJobRunner freshNode emptySeedRunner).map
        (fun r => r.runner.map JobRunner.StaticWalletSeed)
      = some (some "generated seed") ∧
    emptySeedRunner.StaticWalletSeed = "" := by
  decide

/-- C10, amended: for every runner `j` returned by `newJobRunner` whose
`StaticWalletSeed` is not empty, `recreateJobRunner(j)` runs (no nil
dereference) and, if it returns a nil error, the new runner's
`StaticWalletSeed` equals that of `j` and `WalletInitPost` was not called. -/
theorem recreateJobRunner_keeps_seed (c c2 : Client) (ant : Ant) (a pw d seed : String)
    (j : JobRunner) (hj : (newJobRunner c ant a pw d seed).runner = some j)
    (hne : j.StaticWalletSeed ≠ "") :
    ∃ r2, recreateJobRunner c2 j = some r2 ∧
      (r2.err = none →
        ∃ j2, r2.runner = some j2 ∧ j2.StaticWalletSeed = j.StaticWalletSeed ∧
          ∀ x ∈ r2.issued, x.isInitPost = false) := by
  obtain ⟨_, hant, _⟩ := newJobRunner_success_calls c ant a pw d seed j hj
  cases herr : (newJobRunner c2 ant ant.APIAddr ant.Config.APIPassword j.staticDataDir
      j.StaticWalletSeed).err with
  | some e =>
    have hrec : recreateJobRunner c2 j = some
        { runner := some JobRunner.zero
          err := some (AddContext e "couldn't create an updated job runner")
          calls := (newJobRunner c2 ant ant.APIAddr ant.Config.APIPassword j.staticDataDir
            j.StaticWalletSeed).calls
          logs := (newJobRunner c2 ant ant.APIAddr ant.Config.APIPassword j.staticDataDir
            j.StaticWalletSeed).logs } := by
      simp only [recreateJobRunner, hant, herr]
    refine ⟨_, hrec, ?_⟩
    intro h
    simp at h
  | none =>
    have hrec : recreateJobRunner c2 j = some (newJobRunner c2 ant ant.APIAddr
        ant.Config.APIPassword j.staticDataDir j.StaticWalletSeed) := by
      simp only [recreateJobRunner, hant, herr]
    refine ⟨_, hrec, ?_⟩
    intro _
    cases hrun : (newJobRunner c2 ant ant.APIAddr ant.Config.APIPassword j.staticDataDir
        j.StaticWalletSeed).runner with
    | none =>
      have := (newJobRunner_runner_none_iff c2 ant ant.APIAddr ant.Config.APIPassword
        j.staticDataDir j.StaticWalletSeed).mp hrun
      exact absurd herr this
    | some j2 =>
      obtain ⟨_, _, h | ⟨_, hseed, h | h⟩⟩ := newJobRunner_success_calls c2 ant ant.APIAddr
        ant.Config.APIPassword j.staticDataDir j.StaticWalletSeed j2 hrun
      · exact absurd h.1 hne
      · exact ⟨j2, rfl, hseed, by simp [RunnerResult.issued, h, WalletCall.isInitPost]⟩
      · exact ⟨j2, rfl, hseed, by simp [RunnerResult.issued, h, WalletCall.isInitPost]⟩

/-- Witness of C10 amended: the runner created on a fresh node, re-created on
the node with its wallet now encrypted. -/
theorem recreateJobRunner_keeps_seed_witness :
    (newJobRunner freshNode exampleAnt "127.0.0.1:9980" "pw" "ant-data" "").runner
      = some { staticAnt := some exampleAnt
               staticClient := some { Address := "127.0.0.1:9980", Password := "pw" }
               StaticWalletSeed := "generated seed"
               staticDataDir := "ant-data" } ∧
    ∃ r2, recreateJobRunner encryptedNode
        { staticAnt := some exampleAnt
          staticClient := some { Address := "127.0.0.1:9980", Password := "pw" }
          StaticWalletSeed := "generated seed"
          staticDataDir := "ant-data" } = some r2 ∧
      (r2.err = none →
        ∃ j2, r2.runner = some j2 ∧ j2.StaticWalletSeed = "generated seed" ∧
          ∀ x ∈ r2.issued, x.isInitPost = false) :=
  ⟨by decide, recreateJobRunner_keeps_seed freshNode encryptedNode exampleAnt "127.0.0.1:9980"
    "pw" "ant-data" ""
    { staticAnt := some exampleAnt
      staticClient := some { Address := "127.0.0.1:9980", Password := "pw" }
      StaticWalletSeed := "generated seed"
      staticDataDir := "ant-data" } (by decide) (by decide)⟩

/-! ## Work group, barrier and waits of the two jobs -/

/-- The events of a loop iteration of `balanceMaintainer` are API calls, log
lines and timed waits. -/
theorem pollIteration_event_kinds (t : Currency) (s : Bool) (p : Poll) :
    ∀ e ∈ (pollIteration t s p).events,
      (∃ c ok, e = Event.call c ok ∧ c ≠ NodeCall.GatewayGet) ∨ (∃ m, e = Event.logLine m) ∨
        (∃ d st, e = Event.selectWait d st) := by
  unfold pollIteration
  cases hw : p.walletGet with
  | none => simp; cases p.stop <;> simp
  | some b =>
    simp only
    split_ifs <;> simp <;> cases p.stop <;> simp

/-- The events of the loop of `balanceMaintainer` are API calls, log lines and
timed waits. -/
theorem loopEvents_event_kinds (t : Currency) (ps : List Poll) :
    ∀ (s : Bool), ∀ e ∈ loopEvents (pollLoop t s ps),
      (∃ c ok, e = Event.call c ok ∧ c ≠ NodeCall.GatewayGet) ∨ (∃ m, e = Event.logLine m) ∨
        (∃ d st, e = Event.selectWait d st) := by
  induction ps with
  | nil => intro s e he; simp [pollLoop, loopEvents] at he
  | cons p ps ih =>
    intro s e he
    rw [pollLoop_cons] at he
    simp only [loopEvents, List.map_cons, List.flatten_cons, List.mem_append] at he
    rcases he with he | he
    · exact pollIteration_event_kinds t s p e he
    · split_ifs at he
      · simp at he
      · exact ih _ e he

theorem gatewayIteration_returned (t : GatewayTick) :
    (gatewayIteration t).returned = t.stop := by
  unfold gatewayIteration
  split_ifs with h <;> simp [h]

/-- The events of a loop iteration of `gatewayConnectability` are peer queries,
log lines and timed waits. -/
theorem gatewayIteration_event_kinds (t : GatewayTick) :
    ∀ e ∈ (gatewayIteration t).events,
      (∃ ok, e = Event.call .GatewayGet ok) ∨ (∃ m, e = Event.logLine m) ∨
        (∃ d st, e = Event.selectWait d st) := by
  unfold gatewayIteration
  split_ifs <;> simp <;> cases t.err <;> simp

theorem gatewayLoop_cons (t : GatewayTick) (ts : List GatewayTick) :
    gatewayLoop (t :: ts) =
      gatewayIteration t :: (if (gatewayIteration t).returned then [] else gatewayLoop ts) :=
  rfl

theorem gatewayLoop_eq_nil (ts : List GatewayTick) : gatewayLoop ts = [] ↔ ts = [] := by
  cases ts with
  | nil => simp [gatewayLoop]
  | cons t ts => simp [gatewayLoop_cons]

theorem gatewayLoopReturned_cons (r : GatewayStep) (rest : List GatewayStep) :
    gatewayLoopReturned (r :: rest)
      = if rest = [] then r.returned else gatewayLoopReturned rest := by
  cases rest with
  | nil => simp [gatewayLoopReturned]
  | cons r2 rest => simp [gatewayLoopReturned, List.getLast?_cons_cons]

/-- The gateway loop returns exactly when some `select` takes the stop case. -/
theorem gatewayLoopReturned_gatewayLoop (ts : List GatewayTick) :
    gatewayLoopReturned (gatewayLoop ts) = true ↔ ∃ t ∈ ts, t.stop = true := by
  induction ts with
  | nil => simp [gatewayLoop, gatewayLoopReturned]
  | cons t ts ih =>
    rw [gatewayLoop_cons, gatewayLoopReturned_cons, gatewayIteration_returned]
    cases hstop : t.stop with
    | true => simp [hstop]
    | false =>
      simp only [Bool.false_eq_true, if_false, gatewayLoop_eq_nil]
      split_ifs with hts
      · subst hts; simp [hstop]
      · rw [ih]; simp [hstop]

theorem gatewayLoop_length_of_no_stop (ts : List GatewayTick)
    (h : ∀ t ∈ ts, t.stop = false) : (gatewayLoop ts).length = ts.length := by
  induction ts with
  | nil => rfl
  | cons t ts ih =>
    rw [gatewayLoop_cons, gatewayIteration_returned, h t (List.mem_cons_self _ _)]
    simp only [Bool.false_eq_true, if_false, List.length_cons]
    rw [ih (fun q hq => h q (List.mem_cons_of_mem _ hq))]

/-- The events of the gateway loop are peer queries, log lines and timed waits. -/
theorem gatewayLoopEvents_event_kinds (ts : List GatewayTick) :
    ∀ e ∈ gatewayLoopEvents (gatewayLoop ts),
      (∃ ok, e = Event.call .GatewayGet ok) ∨ (∃ m, e = Event.logLine m) ∨
        (∃ d st, e = Event.selectWait d st) := by
  induction ts with
  | nil => intro e he; simp [gatewayLoop, gatewayLoopEvents] at he
  | cons t ts ih =>
    intro e he
    rw [gatewayLoop_cons] at he
    simp only [gatewayLoopEvents, List.map_cons, List.flatten_cons, List.mem_append] at he
    rcases he with he | he
    · exact gatewayIteration_event_kinds t e he
    · split_ifs at he
      · simp at he
      · exact ih e he

/-- When the gateway loop returns, its last event is a wait that took the stop case. -/
theorem gatewayLoopEvents_end_of_returned (ts : List GatewayTick)
    (h : gatewayLoopReturned (gatewayLoop ts) = true) :
    ∃ pre d, gatewayLoopEvents (gatewayLoop ts) = pre ++ [Event.selectWait d true] := by
  induction ts with
  | nil => simp [gatewayLoop, gatewayLoopReturned] at h
  | cons t ts ih =>
    rw [gatewayLoop_cons, gatewayLoopReturned_cons, gatewayIteration_returned] at h
    rw [gatewayLoop_cons, gatewayIteration_returned]
    cases hstop : t.stop with
    | true =>
      refine ⟨[], gatewayConnectabilitySleepTime, ?_⟩
      simp [gatewayLoopEvents, gatewayIteration, hstop]
    | false =>
      rw [hstop] at h
      simp only [Bool.false_eq_true, if_false] at h ⊢
      split_ifs at h with hnil
      obtain ⟨pre2, d2, h2⟩ := ih h
      refine ⟨(gatewayIteration t).events ++ pre2, d2, ?_⟩
      simp only [gatewayLoopEvents, List.map_cons, List.flatten_cons] at h2 ⊢
      rw [h2, List.append_assoc]

/-- No `Done` occurs among the events of the loop of `balanceMaintainer`. -/
theorem loopEvents_count_done (t : Currency) (s : Bool) (ps : List Poll) :
    (loopEvents (pollLoop t s ps)).count Event.tgDone = 0 := by
  rw [List.count_eq_zero]
  intro h
  rcases loopEvents_event_kinds t ps s _ h with ⟨c, ok, h, _⟩ | ⟨m, h⟩ | ⟨d, st, h⟩ <;> cases h

/-- No `Done` occurs among the events of the gateway loop. -/
theorem gatewayLoopEvents_count_done (ts : List GatewayTick) :
    (gatewayLoopEvents (gatewayLoop ts)).count Event.tgDone = 0 := by
  rw [List.count_eq_zero]
  intro h
  rcases gatewayLoopEvents_event_kinds ts _ h with ⟨ok, h⟩ | ⟨m, h⟩ | ⟨d, st, h⟩ <;> cases h

theorem getLast?_cons_append_singleton {α : Type} (a : α) (l : List α) (x : α) :
    (a :: (l ++ [x])).getLast? = some x := by
  have h : a :: (l ++ [x]) = (a :: l) ++ [x] := rfl
  rw [h, List.getLast?_concat]

/-- No `Add` occurs among the events of the loop of `balanceMaintainer`. -/
theorem loopEvents_count_add (t : Currency) (s : Bool) (ps : List Poll) :
    (loopEvents (pollLoop t s ps)).count (Event.tgAdd true) = 0 := by
  rw [List.count_eq_zero]
  intro h
  rcases loopEvents_event_kinds t ps s _ h with ⟨c, ok, h, _⟩ | ⟨m, h⟩ | ⟨d, st, h⟩ <;> cases h

/-- No `Add` occurs among the events of the gateway loop. -/
theorem gatewayLoopEvents_count_add (ts : List GatewayTick) :
    (gatewayLoopEvents (gatewayLoop ts)).count (Event.tgAdd true) = 0 := by
  rw [List.count_eq_zero]
  intro h
  rcases gatewayLoopEvents_event_kinds ts _ h with ⟨ok, h⟩ | ⟨m, h⟩ | ⟨d, st, h⟩ <;> cases h

/-- When entering the work group fails, `balanceMaintainer` returns at once:
no barrier wait, no API call, no `Done`. -/
theorem balanceMaintainer_not_entered (env : JobEnv) (t : Currency)
    (hadd : env.addOk = false) :
    (balanceMaintainer env t).events = [Event.tgAdd false] ∧
    (balanceMaintainer env t).returned = true := by
  simp [balanceMaintainer, hadd]

/-- C11, the code at the failing input: entering the work group fails, the
barrier is released and the stop channel is ready at the first `select`.
`gatewayConnectability` discards the error of `Add`: it waits on the barrier,
reaches its first timed wait and calls `Done` on the group it never entered;
when the barrier is not released it stays blocked in the barrier wait.
`balanceMaintainer` on the same failure returns at once. -/
theorem gatewayConnectability_ignores_failed_add :
    (gatewayConnectability ⟨false, true, true, []⟩).events
      = [.tgAdd false, .antSyncWGWait true, .selectWait 60 true, .tgDone] ∧
    (gatewayConnectability ⟨false, false, true, []⟩).events
      = [.tgAdd false, .antSyncWGWait false] ∧
    (gatewayConnectability ⟨false, false, true, []⟩).returned = false ∧
    (balanceMaintainer ⟨false, true, false, true, []⟩ 10).events = [.tgAdd false] := by
  decide

/-- C12: in every run of either job that entered the work group, `Add` is the
first event and occurs once, and `Done` occurs exactly once if the job has
returned and not at all otherwise; when the job has returned, `Done` is its
last event. This covers every way of finishing: a barrier wait aborted by stop
and a failed first miner start return, and so does a stop observed in a timed
wait. -/
theorem jobs_pair_add_with_one_done (env : JobEnv) (t : Currency) (genv : GatewayEnv)
    (hadd : env.addOk = true) (hgadd : genv.addOk = true) :
    ((balanceMaintainer env t).events.head? = some (Event.tgAdd true) ∧
      (balanceMaintainer env t).events.count (Event.tgAdd true) = 1 ∧
      (balanceMaintainer env t).events.count Event.tgDone
        = (if (balanceMaintainer env t).returned then 1 else 0) ∧
      ((balanceMaintainer env t).returned = true →
        (balanceMaintainer env t).events.getLast? = some Event.tgDone) ∧
      (env.synced = false → (balanceMaintainer env t).returned = true) ∧
      (env.firstStartOk = false → (balanceMaintainer env t).returned = true)) ∧
    ((gatewayConnectability genv).events.head? = some (Event.tgAdd true) ∧
      (gatewayConnectability genv).events.count (Event.tgAdd true) = 1 ∧
      (gatewayConnectability genv).events.count Event.tgDone
        = (if (gatewayConnectability genv).returned then 1 else 0) ∧
      ((gatewayConnectability genv).returned = true →
        (gatewayConnectability genv).events.getLast? = some Event.tgDone)) := by
  constructor
  · cases hs : env.synced with
    | false => simp [balanceMaintainer, hadd, hs]
    | true =>
      cases hf : env.firstStartOk with
      | false => simp [balanceMaintainer, hadd, hs, hf]
      | true =>
        have hd := loopEvents_count_done t true env.polls
        have ha := loopEvents_count_add t true env.polls
        cases hr : loopReturned (pollLoop t true env.polls) <;>
          simp [balanceMaintainer, hadd, hs, hf, hr, hd, ha, List.count_cons,
            getLast?_cons_append_singleton]
  · cases hb : genv.barrierReleased with
    | false => simp [gatewayConnectability, hgadd, hb]
    | true =>
      cases hw : genv.warmupStop with
      | true => simp [gatewayConnectability, hgadd, hb, hw]
      | false =>
        have hd := gatewayLoopEvents_count_done genv.ticks
        have ha := gatewayLoopEvents_count_add genv.ticks
        cases hr : gatewayLoopReturned (gatewayLoop genv.ticks) <;>
          simp [gatewayConnectability, hgadd, hb, hw, hr, hd, ha, List.count_cons,
            getLast?_cons_append_singleton]

/-- Witness of C12: a balance maintainer and a gateway monitor that each observe
stop in their first loop wait. -/
theorem jobs_pair_add_with_one_done_witness :
    (⟨true, true, false, true, [⟨some 3, true, true⟩]⟩ : JobEnv).addOk = true ∧
    (balanceMaintainer ⟨true, true, false, true, [⟨some 3, true, true⟩]⟩ 10).events.count
        Event.tgDone
      = (if (balanceMaintainer ⟨true, true, false, true, [⟨some 3, true, true⟩]⟩ 10).returned
          then 1 else 0) :=
  ⟨rfl, (jobs_pair_add_with_one_done ⟨true, true, false, true, [⟨some 3, true, true⟩]⟩ 10
    ⟨true, true, false, [⟨true, ⟨[]⟩, none⟩]⟩ rfl rfl).1.2.2.1⟩

/-- The barrier wait of `waitForAntsSync` races the stop signal: with stop
signalled and the barrier not released it yields false; it yields true only if
the barrier was released; it blocks only while neither has happened. -/
theorem waitForAntsSync_races_stop (w : SyncEnv) :
    (w.stopSignalled = true → w.barrierReleased = false → waitForAntsSync w = some false) ∧
    (waitForAntsSync w = some true → w.barrierReleased = true) ∧
    (waitForAntsSync w = none ↔ w.barrierReleased = false ∧ w.stopSignalled = false) := by
  cases w with
  | mk r st ch => cases r <;> cases st <;> cases ch <;> simp [waitForAntsSync]

/-- While the barrier is not released, `gatewayConnectability` stays in
`AntSyncWG.Wait()`, whatever the stop signal does. -/
theorem gatewayConnectability_blocked_at_barrier (env : GatewayEnv)
    (hb : env.barrierReleased = false) :
    (gatewayConnectability env).returned = false ∧
    (gatewayConnectability env).events = [Event.tgAdd env.addOk, Event.antSyncWGWait false] := by
  simp [gatewayConnectability, hb]

/-- C13, the code at the failing input: the work group is entered, the barrier
is not released and stop is signalled (every `select` the job could reach would
take the stop case). `gatewayConnectability` waits in `AntSyncWG.Wait()`, which
has no stop case: it has not returned and `Done` is not called. In the same
situation `waitForAntsSync` yields false and `balanceMaintainer` returns. -/
theorem gatewayConnectability_barrier_wait_ignores_stop :
    (gatewayConnectability ⟨true, false, true, [⟨true, ⟨[]⟩, none⟩]⟩).returned = false ∧
    (gatewayConnectability ⟨true, false, true, [⟨true, ⟨[]⟩, none⟩]⟩).events
      = [.tgAdd true, .antSyncWGWait false] ∧
    waitForAntsSync ⟨false, true, true⟩ = some false ∧
    (balanceMaintainer ⟨true, false, false, true, []⟩ 10).returned = true ∧
    (balanceMaintainer ⟨true, false, false, true, []⟩ 10).events
      = [.tgAdd true, .waitForAntsSync false, .tgDone] := by
  decide

/-- C14: in every run of `balanceMaintainer` whose barrier wait is the result of
`waitForAntsSync`, no event before the barrier wait that found the barrier
released is a node API call (when there is no such wait, no event at all is);
the barrier wait yields true only if the barrier was released; and if stop is
signalled while the barrier is not released, the job returns having issued no
API call. -/
theorem balanceMaintainer_no_call_before_barrier (env : JobEnv) (t : Currency) (w : SyncEnv)
    (hw : waitForAntsSync w = some env.synced) :
    (∀ e ∈ beforeBarrierRelease (balanceMaintainer env t).events, e.isCall = false) ∧
    (env.synced = true → w.barrierReleased = true) ∧
    (w.stopSignalled = true → w.barrierReleased = false →
      (balanceMaintainer env t).returned = true ∧
      ∀ e ∈ (balanceMaintainer env t).events, e.isCall = false) := by
  refine ⟨?_, ?_, ?_⟩
  · cases ha : env.addOk with
    | false => simp [balanceMaintainer, ha, beforeBarrierRelease, Event.isCall]
    | true =>
      cases hs : env.synced with
      | false => simp [balanceMaintainer, ha, hs, beforeBarrierRelease, Event.isCall]
      | true =>
        cases hf : env.firstStartOk <;>
          simp [balanceMaintainer, ha, hs, hf, beforeBarrierRelease, Event.isCall]
  · intro hs
    rw [hs] at hw
    exact (waitForAntsSync_races_stop w).2.1 hw
  · intro hst hb
    have h := (waitForAntsSync_races_stop w).1 hst hb
    rw [h] at hw
    have hs : env.synced = false := by simpa using hw.symm
    cases ha : env.addOk <;> simp [balanceMaintainer, ha, hs, Event.isCall]

/-- Witness of C14: stop signalled while the barrier is engaged. -/
theorem balanceMaintainer_no_call_before_barrier_witness :
    waitForAntsSync ⟨false, true, false⟩ = some false ∧
    (balanceMaintainer ⟨true, false, false, true, [⟨some 3, true, false⟩]⟩ 10).returned = true ∧
    ∀ e ∈ (balanceMaintainer ⟨true, false, false, true, [⟨some 3, true, false⟩]⟩ 10).events,
      e.isCall = false :=
  ⟨rfl, (balanceMaintainer_no_call_before_barrier
    ⟨true, false, false, true, [⟨some 3, true, false⟩]⟩ 10 ⟨false, true, false⟩ rfl).2.2 rfl rfl⟩

/-! ### Timed waits -/

/-- An iteration of `balanceMaintainer` has one timed wait, its last event:
when it takes the stop case nothing follows it in the iteration, and otherwise
no event of the iteration observed stop. -/
theorem pollIteration_fromFirstStop (t : Currency) (s : Bool) (p : Poll) :
    (p.stop = false → ∀ e ∈ (pollIteration t s p).events, (!e.isStopObserved) = true) ∧
    (p.stop = true → ∃ d, (d = 5 ∨ d = 20) ∧
      fromFirstStop (pollIteration t s p).events = [Event.selectWait d true]) := by
  unfold pollIteration
  cases hw : p.walletGet with
  | none =>
    constructor
    · intro h; simp [h, Event.isStopObserved]
    · intro h
      exact ⟨5, Or.inl rfl, by
        simp [h, fromFirstStop, Event.isStopObserved, balanceMaintainerErrorSleepDuration]⟩
  | some b =>
    simp only
    split_ifs
    all_goals constructor
    all_goals intro h
    all_goals first
      | (simp [h, Event.isStopObserved]; done)
      | (refine ⟨5, Or.inl rfl, ?_⟩
         simp [h, fromFirstStop, Event.isStopObserved, balanceMaintainerErrorSleepDuration]
         done)
      | (refine ⟨20, Or.inr rfl, ?_⟩
         simp [h, fromFirstStop, Event.isStopObserved, walletBalanceCheckInterval])

/-- In the loop of `balanceMaintainer`, the first wait that observes stop is
the last event. -/
theorem loopEvents_fromFirstStop (t : Currency) (ps : List Poll) :
    ∀ s : Bool,
      (loopReturned (pollLoop t s ps) = false →
        fromFirstStop (loopEvents (pollLoop t s ps)) = []) ∧
      (loopReturned (pollLoop t s ps) = true → ∃ d, (d = 5 ∨ d = 20) ∧
        fromFirstStop (loopEvents (pollLoop t s ps)) = [Event.selectWait d true]) := by
  induction ps with
  | nil => intro s; simp [pollLoop, loopReturned, loopEvents, fromFirstStop]
  | cons p ps ih =>
    intro s
    rw [pollLoop_cons, loopReturned_cons]
    have hret := (pollIteration_ends_in_select t s p).1
    obtain ⟨h0, h1⟩ := pollIteration_fromFirstStop t s p
    cases hstop : p.stop with
    | true =>
      obtain ⟨d, hd, hev⟩ := h1 hstop
      have hev2 : fromFirstStop (loopEvents [pollIteration t s p]) = [Event.selectWait d true] := by
        simpa [loopEvents] using hev
      simp only [hret, hstop, if_true]
      exact ⟨by simp, fun _ => ⟨d, hd, hev2⟩⟩
    | false =>
      have hpre : fromFirstStop (loopEvents (pollIteration t s p ::
            pollLoop t (pollIteration t s p).minerRunning ps))
          = fromFirstStop (loopEvents (pollLoop t (pollIteration t s p).minerRunning ps)) := by
        simp only [loopEvents, List.map_cons, List.flatten_cons, fromFirstStop]
        exact List.dropWhile_append_of_pos (h0 hstop)
      simp only [hret, hstop, Bool.false_eq_true, if_false, hpre]
      split_ifs with hnil
      · rw [hnil]
        simp [loopEvents, fromFirstStop]
      · exact ih _

/-- An iteration of `gatewayConnectability` that observes stop consists of
that wait alone; otherwise none of its events observed stop. -/
theorem gatewayIteration_fromFirstStop (t : GatewayTick) :
    (t.stop = false → ∀ e ∈ (gatewayIteration t).events, (!e.isStopObserved) = true) ∧
    (t.stop = true → (gatewayIteration t).events = [Event.selectWait 30 true]) := by
  unfold gatewayIteration
  constructor
  · intro h
    simp only [h, Bool.false_eq_true, if_false]
    intro e he
    simp only [List.mem_append, List.mem_cons, List.mem_singleton, List.not_mem_nil,
      or_false] at he
    rcases he with ((rfl | rfl) | he) | he
    · rfl
    · rfl
    · split_ifs at he
      · simp only [List.mem_singleton] at he; subst he; rfl
      · simp at he
    · split_ifs at he
      · simp only [List.mem_singleton] at he; subst he; rfl
      · simp at he
  · intro h
    simp [h, gatewayConnectabilitySleepTime]

/-- In the gateway loop, the first wait that observes stop is the last event. -/
theorem gatewayLoopEvents_fromFirstStop (ts : List GatewayTick) :
    (gatewayLoopReturned (gatewayLoop ts) = false →
      fromFirstStop (gatewayLoopEvents (gatewayLoop ts)) = []) ∧
    (gatewayLoopReturned (gatewayLoop ts) = true →
      fromFirstStop (gatewayLoopEvents (gatewayLoop ts)) = [Event.selectWait 30 true]) := by
  induction ts with
  | nil => simp [gatewayLoop, gatewayLoopReturned, gatewayLoopEvents, fromFirstStop]
  | cons t ts ih =>
    rw [gatewayLoop_cons, gatewayLoopReturned_cons, gatewayIteration_returned]
    obtain ⟨h0, h1⟩ := gatewayIteration_fromFirstStop t
    cases hstop : t.stop with
    | true =>
      simp only [if_true]
      refine ⟨by simp, fun _ => ?_⟩
      simp [gatewayLoopEvents, h1 hstop, fromFirstStop, Event.isStopObserved]
    | false =>
      have hpre : fromFirstStop (gatewayLoopEvents (gatewayIteration t :: gatewayLoop ts))
          = fromFirstStop (gatewayLoopEvents (gatewayLoop ts)) := by
        simp only [gatewayLoopEvents, List.map_cons, List.flatten_cons, fromFirstStop]
        exact List.dropWhile_append_of_pos (h0 hstop)
      simp only [Bool.false_eq_true, if_false, hpre]
      split_ifs with hnil
      · rw [hnil]
        simp [gatewayLoopEvents, fromFirstStop]
      · exact ih

/-- C15: in every run of either job, either no wait observed the stop signal,
or the job has returned and, from the first wait that observed it on, the
events are exactly that wait (of 5 or 20 seconds for `balanceMaintainer`, of 60
or 30 seconds for `gatewayConnectability`) and the deferred `Done`: no API
call, no retry and no further wait follows the observed stop. -/
theorem jobs_return_when_stop_observed (env : JobEnv) (t : Currency) (genv : GatewayEnv) :
    (fromFirstStop (balanceMaintainer env t).events = [] ∨
      ∃ d, (d = 5 ∨ d = 20) ∧ (balanceMaintainer env t).returned = true ∧
        fromFirstStop (balanceMaintainer env t).events
          = [Event.selectWait d true, Event.tgDone]) ∧
    (fromFirstStop (gatewayConnectability genv).events = [] ∨
      ∃ d, (d = 60 ∨ d = 30) ∧ (gatewayConnectability genv).returned = true ∧
        fromFirstStop (gatewayConnectability genv).events
          = [Event.selectWait d true, Event.tgDone]) := by
  constructor
  · cases ha : env.addOk with
    | false =>
      left; simp [balanceMaintainer, ha, fromFirstStop, Event.isStopObserved]
    | true =>
      cases hs : env.synced with
      | false =>
        left; simp [balanceMaintainer, ha, hs, fromFirstStop, Event.isStopObserved]
      | true =>
        cases hf : env.firstStartOk with
        | false =>
          left; simp [balanceMaintainer, ha, hs, hf, fromFirstStop, Event.isStopObserved]
        | true =>
          obtain ⟨h0, h1⟩ := loopEvents_fromFirstStop t env.polls true
          have hev : fromFirstStop (balanceMaintainer env t).events
              = fromFirstStop (loopEvents (pollLoop t true env.polls)
                  ++ (if loopReturned (pollLoop t true env.polls) then [Event.tgDone] else [])) := by
            simp [balanceMaintainer, ha, hs, hf, fromFirstStop, Event.isStopObserved]
          have hret : (balanceMaintainer env t).returned
              = loopReturned (pollLoop t true env.polls) := by
            simp [balanceMaintainer, ha, hs, hf]
          cases hr : loopReturned (pollLoop t true env.polls) with
          | false =>
            left
            have h := h0 hr
            simp only [fromFirstStop] at h hev ⊢
            rw [hev, hr, List.dropWhile_append, h]
            simp
          | true =>
            right
            obtain ⟨d, hd, h⟩ := h1 hr
            refine ⟨d, hd, by rw [hret, hr], ?_⟩
            simp only [fromFirstStop] at h hev ⊢
            rw [hev, hr, List.dropWhile_append, h]
            simp
  · cases hb : genv.barrierReleased with
    | false =>
      left; simp [gatewayConnectability, hb, fromFirstStop, Event.isStopObserved]
    | true =>
      cases hw : genv.warmupStop with
      | true =>
        right
        exact ⟨60, Or.inl rfl, by simp [gatewayConnectability, hb, hw], by
          simp [gatewayConnectability, hb, hw, fromFirstStop, Event.isStopObserved,
            gatewayConnectabilityInitialSleepTime]⟩
      | false =>
        obtain ⟨h0, h1⟩ := gatewayLoopEvents_fromFirstStop genv.ticks
        have hev : fromFirstStop (gatewayConnectability genv).events
            = fromFirstStop (gatewayLoopEvents (gatewayLoop genv.ticks)
                ++ (if gatewayLoopReturned (gatewayLoop genv.ticks)
                    then [Event.tgDone] else [])) := by
          simp [gatewayConnectability, hb, hw, fromFirstStop, Event.isStopObserved]
        have hret : (gatewayConnectability genv).returned
            = gatewayLoopReturned (gatewayLoop genv.ticks) := by
          simp [gatewayConnectability, hb, hw]
        cases hr : gatewayLoopReturned (gatewayLoop genv.ticks) with
        | false =>
          left
          have h := h0 hr
          simp only [fromFirstStop] at h hev ⊢
          rw [hev, hr, List.dropWhile_append, h]
          simp
        | true =>
          right
          have h := h1 hr
          refine ⟨30, Or.inr rfl, by rw [hret, hr], ?_⟩
          simp only [fromFirstStop] at h hev ⊢
          rw [hev, hr, List.dropWhile_append, h]
          simp

/-! ### Gateway connectability -/

/-- C16: on a poll tick of `gatewayConnectability` (the wait did not observe
stop) whose peer query succeeds, the events are the wait, the successful query
and, exactly when the number of peers is below two, the "less than two peers"
error line. -/
theorem gatewayConnectability_logs_low_peers (t : GatewayTick)
    (hstop : t.stop = false) (herr : t.err = none) :
    (Event.logLine .lessThanTwoPeers ∈ (gatewayIteration t).events
      ↔ t.gatewayInfo.Peers.length < 2) ∧
    (gatewayIteration t).events
      = [Event.selectWait 30 false, Event.call .GatewayGet true]
        ++ (if t.gatewayInfo.Peers.length < 2 then [Event.logLine .lessThanTwoPeers] else []) := by
  by_cases h : t.gatewayInfo.Peers.length < 2 <;>
    simp [gatewayIteration, hstop, herr, h, gatewayConnectabilitySleepTime]

/-- Witness of C16: the line is logged with 0 and with 1 peer, and not with 2
or 3 peers. -/
theorem gatewayConnectability_logs_low_peers_witness :
    (Event.logLine .lessThanTwoPeers ∈ (gatewayIteration ⟨false, ⟨[]⟩, none⟩).events
      ↔ ([] : List String).length < 2) ∧
    (Event.logLine .lessThanTwoPeers ∈ (gatewayIteration ⟨false, ⟨["a"]⟩, none⟩).events
      ↔ ["a"].length < 2) ∧
    (Event.logLine .lessThanTwoPeers ∈ (gatewayIteration ⟨false, ⟨["a", "b"]⟩, none⟩).events
      ↔ ["a", "b"].length < 2) ∧
    (Event.logLine .lessThanTwoPeers
        ∈ (gatewayIteration ⟨false, ⟨["a", "b", "c"]⟩, none⟩).events
      ↔ ["a", "b", "c"].length < 2) :=
  ⟨(gatewayConnectability_logs_low_peers ⟨false, ⟨[]⟩, none⟩ rfl rfl).1,
    (gatewayConnectability_logs_low_peers ⟨false, ⟨["a"]⟩, none⟩ rfl rfl).1,
    (gatewayConnectability_logs_low_peers ⟨false, ⟨["a", "b"]⟩, none⟩ rfl rfl).1,
    (gatewayConnectability_logs_low_peers ⟨false, ⟨["a", "b", "c"]⟩, none⟩ rfl rfl).1⟩

/-- C17: in every run of `gatewayConnectability`, every node API call is the
gateway peer query; the job has returned exactly when the barrier was released
and its warm-up wait or one of its loop waits observed the stop signal, and its
last events are then that wait and the deferred `Done`; with the barrier
released and no wait observing stop, one iteration runs per answer, whatever
the results of the queries and the peer counts, and the job has not returned. -/
theorem gatewayConnectability_runs_until_stop (env : GatewayEnv) :
    (∀ e ∈ (gatewayConnectability env).events, ∀ c ok, e = Event.call c ok →
      c = NodeCall.GatewayGet) ∧
    ((gatewayConnectability env).returned = true ↔
      env.barrierReleased = true ∧ (env.warmupStop = true ∨ ∃ t ∈ env.ticks, t.stop = true)) ∧
    ((gatewayConnectability env).returned = true →
      ∃ pre d, (gatewayConnectability env).events
        = pre ++ [Event.selectWait d true, Event.tgDone]) ∧
    (env.barrierReleased = true → env.warmupStop = false →
      (∀ t ∈ env.ticks, t.stop = false) →
      (gatewayConnectability env).returned = false ∧
      (gatewayConnectability env).steps.length = env.ticks.length) := by
  cases hb : env.barrierReleased with
  | false => simp [gatewayConnectability, hb]
  | true =>
    cases hw : env.warmupStop with
    | true =>
      refine ⟨by simp [gatewayConnectability, hb, hw], by simp [gatewayConnectability, hb, hw],
        ?_, by simp⟩
      intro _
      exact ⟨[Event.tgAdd env.addOk, Event.antSyncWGWait true], 60, by
        simp [gatewayConnectability, hb, hw, gatewayConnectabilityInitialSleepTime]⟩
    | false =>
      have hret : (gatewayConnectability env).returned
          = gatewayLoopReturned (gatewayLoop env.ticks) := by
        simp [gatewayConnectability, hb, hw]
      have hsteps : (gatewayConnectability env).steps = gatewayLoop env.ticks := by
        simp [gatewayConnectability, hb, hw]
      have hev : (gatewayConnectability env).events
          = [Event.tgAdd env.addOk, Event.antSyncWGWait true, Event.selectWait 60 false]
            ++ gatewayLoopEvents (gatewayLoop env.ticks)
            ++ (if gatewayLoopReturned (gatewayLoop env.ticks) then [Event.tgDone] else []) := by
        simp [gatewayConnectability, hb, hw, gatewayConnectabilityInitialSleepTime]
      refine ⟨?_, ?_, ?_, ?_⟩
      · intro e he c ok hc
        rw [hev] at he
        simp only [List.mem_append, List.mem_cons, List.mem_singleton, List.not_mem_nil,
          or_false] at he
        rcases he with ((he | he | he) | he) | he
        · rw [he] at hc; cases hc
        · rw [he] at hc; cases hc
        · rw [he] at hc; cases hc
        · rcases gatewayLoopEvents_event_kinds env.ticks e he with ⟨ok2, h⟩ | ⟨m, h⟩ | ⟨d, st, h⟩
          · rw [h] at hc; cases hc; rfl
          · rw [h] at hc; cases hc
          · rw [h] at hc; cases hc
        · split_ifs at he
          · simp only [List.mem_singleton] at he
            rw [he] at hc; cases hc
          · simp at he
      · rw [hret, gatewayLoopReturned_gatewayLoop]
        simp
      · intro h
        rw [hret] at h
        obtain ⟨pre, d, hpre⟩ := gatewayLoopEvents_end_of_returned env.ticks h
        refine ⟨[Event.tgAdd env.addOk, Event.antSyncWGWait true, Event.selectWait 60 false]
          ++ pre, d, ?_⟩
        rw [hev, h, hpre]
        simp
      · intro _ _ hno
        rw [hret, hsteps]
        refine ⟨?_, gatewayLoop_length_of_no_stop env.ticks hno⟩
        cases h : gatewayLoopReturned (gatewayLoop env.ticks) with
        | false => rfl
        | true =>
          obtain ⟨q, hq, hs⟩ := (gatewayLoopReturned_gatewayLoop env.ticks).mp h
          rw [hno q hq] at hs
          exact absurd hs (by decide)

/-! ### Wait durations -/

theorem waitDurations_append (l₁ l₂ : List Event) :
    waitDurations (l₁ ++ l₂) = waitDurations l₁ ++ waitDurations l₂ := by
  simp [waitDurations, List.filterMap_append]

theorem gatewayIteration_waitDurations (tick : GatewayTick) :
    waitDurations (gatewayIteration tick).events = [30] := by
  unfold gatewayIteration
  split_ifs <;> simp [waitDurations, gatewayConnectabilitySleepTime]

/-- Each executed iteration of the gateway loop waits 30 seconds once. -/
theorem gatewayLoopEvents_waitDurations (ts : List GatewayTick) :
    waitDurations (gatewayLoopEvents (gatewayLoop ts))
      = List.replicate (gatewayLoop ts).length 30 := by
  induction ts with
  | nil => simp [gatewayLoop, gatewayLoopEvents, waitDurations]
  | cons tick ts ih =>
    rw [gatewayLoop_cons]
    simp only [gatewayLoopEvents, List.map_cons, List.flatten_cons, waitDurations_append,
      gatewayIteration_waitDurations, List.length_cons, List.replicate_succ]
    split_ifs
    · simp [waitDurations]
    · simpa [gatewayLoopEvents] using ih

/-- C18: the four constants are 20, 5, 60 and 30 seconds. An iteration of
`balanceMaintainer` has exactly one timed wait, its last event: of 20 seconds
when no API call of the iteration failed, of 5 seconds when one did, which is
the case exactly when the wallet query failed or a miner command was issued and
failed. An iteration of `gatewayConnectability` has exactly one timed wait, of
30 seconds, its first event, followed by the peer query when stop was not
observed. A run of `gatewayConnectability` past the barrier waits 60 seconds
once, right after the barrier, then 30 seconds per iteration. -/
theorem jobs_wait_durations (t : Currency) (s : Bool) (p : Poll) (tick : GatewayTick)
    (genv : GatewayEnv) :
    (walletBalanceCheckInterval = 20 ∧ balanceMaintainerErrorSleepDuration = 5 ∧
      gatewayConnectabilityInitialSleepTime = 60 ∧ gatewayConnectabilitySleepTime = 30) ∧
    ((∀ c, Event.call c false ∉ (pollIteration t s p).events) →
      waitDurations (pollIteration t s p).events = [20] ∧
      (pollIteration t s p).events.getLast? = some (Event.selectWait 20 p.stop)) ∧
    ((∃ c, Event.call c false ∈ (pollIteration t s p).events) →
      waitDurations (pollIteration t s p).events = [5] ∧
      (pollIteration t s p).events.getLast? = some (Event.selectWait 5 p.stop)) ∧
    ((∃ c, Event.call c false ∈ (pollIteration t s p).events) ↔
      p.walletGet = none ∨
        (minerCommands (pollIteration t s p).events ≠ [] ∧ p.minerCmdOk = false)) ∧
    (waitDurations (gatewayIteration tick).events = [30] ∧
      (gatewayIteration tick).events.head? = some (Event.selectWait 30 tick.stop) ∧
      (tick.stop = false →
        (gatewayIteration tick).events[1]? = some (Event.call .GatewayGet tick.err.isNone))) ∧
    (genv.barrierReleased = true →
      waitDurations (gatewayConnectability genv).events
        = 60 :: List.replicate (gatewayConnectability genv).steps.length 30 ∧
      (gatewayConnectability genv).events.take 3
        = [Event.tgAdd genv.addOk, Event.antSyncWGWait true,
            Event.selectWait 60 genv.warmupStop]) := by
  refine ⟨⟨rfl, rfl, rfl, rfl⟩, ?_, ?_, ?_, ?_, ?_⟩
  · unfold pollIteration
    cases hw : p.walletGet with
    | none => simp
    | some b =>
      simp only
      split_ifs <;>
        simp [waitDurations, walletBalanceCheckInterval, balanceMaintainerErrorSleepDuration]
  · unfold pollIteration
    cases hw : p.walletGet with
    | none => simp [waitDurations, balanceMaintainerErrorSleepDuration]
    | some b =>
      simp only
      split_ifs <;>
        simp [waitDurations, walletBalanceCheckInterval, balanceMaintainerErrorSleepDuration]
  · unfold pollIteration
    cases hw : p.walletGet with
    | none => simp
    | some b =>
      simp only
      split_ifs with h1 h2 h3 h4 <;> simp [minerCommands, *]
  · refine ⟨gatewayIteration_waitDurations tick, ?_, ?_⟩
    · unfold gatewayIteration
      split_ifs with h <;> simp [h, gatewayConnectabilitySleepTime]
    · intro h
      simp [gatewayIteration, h]
  · intro hb
    cases hw : genv.warmupStop with
    | true =>
      simp [gatewayConnectability, hb, hw, waitDurations, gatewayConnectabilityInitialSleepTime]
    | false =>
      have h := gatewayLoopEvents_waitDurations genv.ticks
      have hsteps : (gatewayConnectability genv).steps = gatewayLoop genv.ticks := by
        simp [gatewayConnectability, hb, hw]
      have hev : (gatewayConnectability genv).events
          = [Event.tgAdd genv.addOk, Event.antSyncWGWait true, Event.selectWait 60 false]
            ++ (gatewayLoopEvents (gatewayLoop genv.ticks)
              ++ (if gatewayLoopReturned (gatewayLoop genv.ticks)
                  then [Event.tgDone] else [])) := by
        simp [gatewayConnectability, hb, hw, gatewayConnectabilityInitialSleepTime]
      constructor
      · rw [hev, hsteps, waitDurations_append, waitDurations_append, h]
        cases hr : gatewayLoopReturned (gatewayLoop genv.ticks) <;> simp [waitDurations]
      · rw [hev]
        simp

/-- The wrapper `JobRunner.Stop` returns a nil error exactly when the thread
group's `Stop` does, and otherwise that error with the context "can't stop
thread group". -/
theorem JobRunner.Stop_err {TG : Type} (stop : TG → TG × Option Error) (StaticTG : TG) :
    ((JobRunner.Stop stop StaticTG).2 = none ↔ (stop StaticTG).2 = none) ∧
    (JobRunner.Stop stop StaticTG).1 = (stop StaticTG).1 ∧
    (∀ err, (stop StaticTG).2 = some err →
      (JobRunner.Stop stop StaticTG).2 = some (AddContext err "can't stop thread group")) := by
  unfold JobRunner.Stop
  rcases h : stop StaticTG with ⟨tg, _ | e⟩ <;> simp

/-- C19: against the work group of the specification, `JobRunner.Stop` returns
a nil error, and a second `Stop` on the runner it leaves returns a nil error
again (not a wrapped "can't stop thread group" error) and changes nothing. -/
theorem JobRunner_Stop_idempotent (tg : ThreadGroup) :
    (JobRunner.Stop ThreadGroup.Stop tg).2 = none ∧
    (JobRunner.Stop ThreadGroup.Stop tg).1.stopped = true ∧
    (JobRunner.Stop ThreadGroup.Stop (JobRunner.Stop ThreadGroup.Stop tg).1).2 = none ∧
    (JobRunner.Stop ThreadGroup.Stop (JobRunner.Stop ThreadGroup.Stop tg).1).1
      = (JobRunner.Stop ThreadGroup.Stop tg).1 := by
  cases tg with
  | mk stopped entered =>
    cases stopped <;> simp [JobRunner.Stop, ThreadGroup.Stop]

/-! ## Consensus groups -/

/-- The tips of the groups after an ant is placed: unchanged if a group
reports the ant's tip, else with the ant's tip appended. -/
theorem placeAnt_keys {α : Type} (a : α) (t : ChainTip) (gs : List (ChainTip × List α)) :
    (placeAnt a t gs).map Prod.fst
      = if t ∈ gs.map Prod.fst then gs.map Prod.fst else gs.map Prod.fst ++ [t] := by
  induction gs with
  | nil => simp [placeAnt]
  | cons g gs ih =>
    obtain ⟨t2, g2⟩ := g
    by_cases h : t2 = t
    · simp [placeAnt, h]
    · have h2 : ¬ t = t2 := fun e => h e.symm
      simp only [placeAnt, h, if_false, List.map_cons, ih, List.mem_cons, h2, false_or]
      split_ifs <;> simp

/-- The groups after an ant is placed: a group with another tip is unchanged,
the group with the ant's tip gets the ant appended, and if there is none the
ant forms a new group. -/
theorem placeAnt_mem {α : Type} (a : α) (t : ChainTip) (gs : List (ChainTip × List α))
    (hnd : (gs.map Prod.fst).Nodup) (tg : ChainTip × List α) (h : tg ∈ placeAnt a t gs) :
    (tg ∈ gs ∧ tg.1 ≠ t) ∨ (tg.1 = t ∧ ∃ g, (t, g) ∈ gs ∧ tg.2 = g ++ [a]) ∨
      (tg = (t, [a]) ∧ t ∉ gs.map Prod.fst) := by
  induction gs with
  | nil =>
    simp only [placeAnt, List.mem_singleton] at h
    exact Or.inr (Or.inr ⟨h, by simp⟩)
  | cons g gs ih =>
    obtain ⟨t2, g2⟩ := g
    simp only [List.map_cons, List.nodup_cons] at hnd
    by_cases h2 : t2 = t
    · subst h2
      simp only [placeAnt, if_true, List.mem_cons] at h
      rcases h with h | h
      · subst h
        exact Or.inr (Or.inl ⟨rfl, g2, by simp, rfl⟩)
      · have h3 : tg.1 ≠ t2 := by
          intro e
          exact hnd.1 (e ▸ List.mem_map_of_mem Prod.fst h)
        exact Or.inl ⟨by simp [h], h3⟩
    · simp only [placeAnt, h2, if_false, List.mem_cons] at h
      rcases h with h | h
      · subst h
        exact Or.inl ⟨by simp, h2⟩
      · rcases ih hnd.2 h with ⟨h3, h4⟩ | ⟨h3, g, h4, h5⟩ | ⟨h3, h4⟩
        · exact Or.inl ⟨by simp [h3], h4⟩
        · exact Or.inr (Or.inl ⟨h3, g, by simp [h4], h5⟩)
        · refine Or.inr (Or.inr ⟨h3, ?_⟩)
          simp only [List.map_cons, List.mem_cons, not_or]
          exact ⟨fun e => h2 e.symm, h4⟩

/-- Placing an ant adds it, and nothing else, to the members of the groups. -/
theorem placeAnt_perm {α : Type} (a : α) (t : ChainTip) (gs : List (ChainTip × List α)) :
    ((placeAnt a t gs).map Prod.snd).flatten.Perm ((gs.map Prod.snd).flatten ++ [a]) := by
  induction gs with
  | nil => simp [placeAnt]
  | cons g gs ih =>
    obtain ⟨t2, g2⟩ := g
    by_cases h : t2 = t
    · simp only [placeAnt, h, if_true, List.map_cons, List.flatten_cons, List.append_assoc]
      exact List.Perm.append_left g2 List.perm_append_comm
    · simp only [placeAnt, h, if_false, List.map_cons, List.flatten_cons, List.append_assoc]
      exact List.Perm.append_left g2 ih

/-- The first members of the groups after an ant is placed: unchanged if a
group reports the ant's tip, else with the ant appended. -/
theorem placeAnt_heads {α : Type} (a : α) (t : ChainTip) (gs : List (ChainTip × List α))
    (hne : ∀ tg ∈ gs, tg.2 ≠ []) :
    (placeAnt a t gs).filterMap (fun tg => tg.2.head?)
      = if t ∈ gs.map Prod.fst then gs.filterMap (fun tg => tg.2.head?)
        else gs.filterMap (fun tg => tg.2.head?) ++ [a] := by
  induction gs with
  | nil => simp [placeAnt]
  | cons g gs ih =>
    obtain ⟨t2, g2⟩ := g
    have hg2 : g2 ≠ [] := hne (t2, g2) (List.mem_cons_self _ _)
    have ih2 := ih (fun tg htg => hne tg (List.mem_cons_of_mem _ htg))
    by_cases h : t2 = t
    · cases g2 with
      | nil => exact absurd rfl hg2
      | cons x xs => simp [placeAnt, h]
    · have h2 : ¬ t = t2 := fun e => h e.symm
      cases g2 with
      | nil => exact absurd rfl hg2
      | cons x xs =>
        simp only [placeAnt, h, if_false, List.map_cons, List.mem_cons, h2, false_or,
          List.filterMap_cons, List.head?_cons, ih2]
        split_ifs <;> simp

/-- The invariant holds before any ant is placed. -/
theorem GroupsInv.nil {α : Type} (tip : α → ChainTip) : GroupsInv tip [] ([] : List α) where
  keys_nodup := by simp
  members := by simp
  nonempty := by simp
  covered := by simp
  perm := by simp
  heads := by simp

/-- Placing the next ant preserves the invariant. -/
theorem GroupsInv.place {α : Type} {tip : α → ChainTip} {gs : List (ChainTip × List α)}
    {seen : List α} (h : GroupsInv tip gs seen) (a : α) :
    GroupsInv tip (placeAnt a (tip a) gs) (seen ++ [a]) where
  keys_nodup := by
    rw [placeAnt_keys]
    split_ifs with hk
    · exact h.keys_nodup
    · exact List.Nodup.append h.keys_nodup (List.nodup_singleton _)
        (fun _ hx ht => hk (List.mem_singleton.mp ht ▸ hx))
  members := by
    intro tg htg
    rcases placeAnt_mem a (tip a) gs h.keys_nodup tg htg with
      ⟨h1, h2⟩ | ⟨h1, g, h2, h3⟩ | ⟨h1, h2⟩
    · have h3 : ¬ tip a = tg.1 := fun e => h2 e.symm
      rw [List.filter_append, ← h.members tg h1]
      simp [h3]
    · have h4 := h.members (tip a, g) h2
      simp only at h4
      rw [List.filter_append, h1, ← h4, h3]
      simp
    · subst h1
      have h3 : seen.filter (fun b => decide (tip b = tip a)) = [] := by
        rw [List.filter_eq_nil_iff]
        intro b hb
        have h4 := h.covered b hb
        simp only [decide_eq_true_eq]
        intro e
        exact h2 (e ▸ h4)
      rw [List.filter_append, h3]
      simp
  nonempty := by
    intro tg htg
    rcases placeAnt_mem a (tip a) gs h.keys_nodup tg htg with
      ⟨h1, _⟩ | ⟨_, g, _, h3⟩ | ⟨h1, _⟩
    · exact h.nonempty tg h1
    · rw [h3]; simp
    · subst h1; simp
  covered := by
    intro b hb
    rw [placeAnt_keys]
    simp only [List.mem_append, List.mem_singleton] at hb
    rcases hb with hb | hb
    · split_ifs
      · exact h.covered b hb
      · exact List.mem_append_left _ (h.covered b hb)
    · subst hb
      split_ifs with hk
      · exact hk
      · simp
  perm := (placeAnt_perm a (tip a) gs).trans (List.Perm.append_right [a] h.perm)
  heads := by
    rw [placeAnt_heads a (tip a) gs h.nonempty]
    split_ifs
    · exact h.heads.trans (List.sublist_append_left seen [a])
    · exact List.Sublist.append h.heads (List.Sublist.refl [a])

/-- When every query succeeds, the grouping loop returns groups that satisfy
the invariant for all the ants. -/
theorem groupAnts_inv {α : Type} (query : α → Except Error ChainTip) (tip : α → ChainTip)
    (ants : List α) :
    ∀ (gs : List (ChainTip × List α)) (seen : List α),
      (∀ a ∈ ants, query a = .ok (tip a)) → GroupsInv tip gs seen →
      ∃ gs2, groupAnts query ants gs = .ok gs2 ∧ GroupsInv tip gs2 (seen ++ ants) := by
  induction ants with
  | nil =>
    intro gs seen _ h
    exact ⟨gs, rfl, by simpa using h⟩
  | cons a ants ih =>
    intro gs seen hq h
    have ha : query a = .ok (tip a) := hq a (List.mem_cons_self _ _)
    obtain ⟨gs2, h1, h2⟩ := ih (placeAnt a (tip a) gs) (seen ++ [a])
      (fun b hb => hq b (List.mem_cons_of_mem _ hb)) (h.place a)
    refine ⟨gs2, ?_, by simpa using h2⟩
    simp only [groupAnts, ha]
    exact h1

/-- C20: for every list of ants whose consensus queries all succeed,
`antConsensusGroups` returns groups that partition the input: no group is
empty; the groups together hold the input ants, each as often as it occurs,
and no ant is in two groups; the ants of one group report the same chain tip
and ants of different groups report different tips; each group holds, in input
order, exactly the input ants reporting its tip; and the first members of the
groups occur in the order of the input. -/
theorem antConsensusGroups_partition {α : Type} (query : α → Except Error ChainTip)
    (tip : α → ChainTip) (ants : List α) (hq : ∀ a ∈ ants, query a = .ok (tip a)) :
    ∃ groups, antConsensusGroups query ants = .ok groups ∧
      (∀ g ∈ groups, g ≠ []) ∧
      groups.flatten.Perm ants ∧
      groups.Pairwise List.Disjoint ∧
      (∀ g ∈ groups, ∀ a ∈ g, ∀ b ∈ g, tip a = tip b) ∧
      groups.Pairwise (fun g h => ∀ a ∈ g, ∀ b ∈ h, tip a ≠ tip b) ∧
      (∀ g ∈ groups, ∃ t, g = ants.filter (fun a => decide (tip a = t))) ∧
      (groups.filterMap List.head?).Sublist ants := by
  obtain ⟨gs, h1, h⟩ := groupAnts_inv query tip ants [] [] hq (GroupsInv.nil tip)
  simp only [List.nil_append] at h
  have hpair : (gs.map Prod.snd).Pairwise (fun g h => ∀ a ∈ g, ∀ b ∈ h, tip a ≠ tip b) := by
    rw [List.pairwise_map]
    have hk := h.keys_nodup
    rw [List.Nodup, List.pairwise_map] at hk
    refine List.Pairwise.imp_of_mem ?_ hk
    intro tg1 tg2 hm1 hm2 hne a ha b hb
    rw [h.members tg1 hm1] at ha
    rw [h.members tg2 hm2] at hb
    simp only [List.mem_filter, decide_eq_true_eq] at ha hb
    rw [ha.2, hb.2]
    exact hne
  refine ⟨gs.map Prod.snd, by simp [antConsensusGroups, h1], ?_, h.perm, ?_, ?_, hpair, ?_, ?_⟩
  · intro g hg
    simp only [List.mem_map] at hg
    obtain ⟨tg, htg, rfl⟩ := hg
    exact h.nonempty tg htg
  · refine List.Pairwise.imp ?_ hpair
    intro g1 g2 hd a ha1 ha2
    exact hd a ha1 a ha2 rfl
  · intro g hg a ha b hb
    simp only [List.mem_map] at hg
    obtain ⟨tg, htg, rfl⟩ := hg
    rw [h.members tg htg] at ha hb
    simp only [List.mem_filter, decide_eq_true_eq] at ha hb
    rw [ha.2, hb.2]
  · intro g hg
    simp only [List.mem_map] at hg
    obtain ⟨tg, htg, rfl⟩ := hg
    exact ⟨tg.1, h.members tg htg⟩
  · have hh := h.heads
    rw [List.filterMap_map]
    exact hh

/-- Witness of C20: three synced ants give one group of size 3; appending one
desynced ant gives two groups of sizes 3 and 1, the desynced ant alone in the
second. -/
theorem antConsensusGroups_partition_witness :
    antConsensusGroups (fun a => .ok (exampleTip a)) [0, 1, 2] = .ok [[0, 1, 2]] ∧
    antConsensusGroups (fun a => .ok (exampleTip a)) [0, 1, 2, 3] = .ok [[0, 1, 2], [3]] ∧
    ∃ groups, antConsensusGroups (fun a => .ok (exampleTip a)) [0, 1, 2, 3] = .ok groups ∧
      (∀ g ∈ groups, g ≠ []) ∧
      groups.flatten.Perm [0, 1, 2, 3] ∧
      groups.Pairwise List.Disjoint ∧
      (∀ g ∈ groups, ∀ a ∈ g, ∀ b ∈ g, exampleTip a = exampleTip b) ∧
      groups.Pairwise (fun g h => ∀ a ∈ g, ∀ b ∈ h, exampleTip a ≠ exampleTip b) ∧
      (∀ g ∈ groups, ∃ t, g = [0, 1, 2, 3].filter (fun a => decide (exampleTip a = t))) ∧
      (groups.filterMap List.head?).Sublist [0, 1, 2, 3] :=
  ⟨rfl, rfl,
    antConsensusGroups_partition (fun a => .ok (exampleTip a)) exampleTip [0, 1, 2, 3]
      (fun _ _ => rfl)⟩

/-! ## Starting jobs, connecting ants -/

/-- C21: `StartJob` called with a name that is not in the job registry returns
a non-nil error (`ErrUnknownJob`), starts no job and leaves the scheduler state
unchanged. -/
theorem StartJob_unknown_name (registry : List String) (s : Scheduler) (name : String)
    (h : name ∉ registry) :
    (StartJob registry s name).2 = some ErrUnknownJob ∧
    (StartJob registry s name).2 ≠ none ∧
    (StartJob registry s name).1 = s ∧
    (StartJob registry s name).1.started = s.started := by
  simp [StartJob, h]

/-- Witness of C21: the name "thisjobdoesnotexist". -/
theorem StartJob_unknown_name_witness :
    "thisjobdoesnotexist" ∉ exampleRegistry ∧
    (StartJob exampleRegistry ⟨⟨false, 0⟩, []⟩ "thisjobdoesnotexist").2 ≠ none ∧
    (StartJob exampleRegistry ⟨⟨false, 0⟩, []⟩ "thisjobdoesnotexist").1 = ⟨⟨false, 0⟩, []⟩ :=
  ⟨by decide,
    (StartJob_unknown_name exampleRegistry ⟨⟨false, 0⟩, []⟩ "thisjobdoesnotexist"
      (by decide)).2.1,
    (StartJob_unknown_name exampleRegistry ⟨⟨false, 0⟩, []⟩ "thisjobdoesnotexist"
      (by decide)).2.2.1⟩

/-- C22: `ConnectAnts` called with fewer than two ants returns a non-nil error
(`ErrInsufficientPeers`) and attempts no peer connection. -/
theorem ConnectAnts_fewer_than_two {α : Type} (connect : α → α → Option Error)
    (ants : List α) (h : ants.length < 2) :
    (ConnectAnts connect ants).err = some ErrInsufficientPeers ∧
    (ConnectAnts connect ants).err ≠ none ∧
    (ConnectAnts connect ants).attempts = [] := by
  match ants, h with
  | [], _ => simp [ConnectAnts]
  | [a], _ => simp [ConnectAnts]
  | _ :: _ :: _, h => exact absurd h (by simp)

/-- Witness of C22: exactly one ant. -/
theorem ConnectAnts_fewer_than_two_witness :
    [exampleAnt].length < 2 ∧
    (ConnectAnts (fun _ _ => none) [exampleAnt]).err ≠ none ∧
    (ConnectAnts (fun _ _ => none) [exampleAnt]).attempts = [] :=
  ⟨by decide,
    (ConnectAnts_fewer_than_two (fun _ _ => none) [exampleAnt] (by decide)).2.1,
    (ConnectAnts_fewer_than_two (fun _ _ => none) [exampleAnt] (by decide)).2.2⟩

/-! ## Excluding versions -/

theorem excludedBy_iff (v : String) (evs : List String) :
    excludedBy v evs = true ↔ ∃ ev ∈ evs, v = ev ∨ v = ev ++ "-antfarm" := by
  induction evs with
  | nil => simp [excludedBy]
  | cons ev evs ih =>
    by_cases h : v = ev ∨ v = ev ++ "-antfarm"
    · simp [excludedBy, h]
    · simp only [excludedBy, h, if_false, ih, List.mem_cons, exists_eq_or_imp, false_or]

theorem excludeVersionsLoop_eq (evs : List String) (vs : List String) :
    ∀ result, excludeVersionsLoop evs vs result
      = result ++ vs.filter (fun v => !excludedBy v evs) := by
  induction vs with
  | nil => intro result; simp [excludeVersionsLoop]
  | cons v vs ih =>
    intro result
    cases h : excludedBy v evs <;> simp [excludeVersionsLoop, h, ih]

/-- C23: `ExcludeVersions(versions, excludeVersions)` is exactly the sublist of
`versions`, in original order and with multiplicity, of those `v` for which no
`ev` in `excludeVersions` satisfies `v == ev` or `v == ev + "-antfarm"`; no
excluded version nor its patch tag occurs in the result, and every other
element of `versions` is kept, as often as it occurs. -/
theorem ExcludeVersions_eq_filter (versions excludeVersions : List String) :
    ExcludeVersions versions excludeVersions
      = versions.filter (fun v =>
          decide (∀ ev ∈ excludeVersions, ¬ (v = ev ∨ v = ev ++ "-antfarm"))) ∧
    (ExcludeVersions versions excludeVersions).Sublist versions ∧
    (∀ v ∈ ExcludeVersions versions excludeVersions, ∀ ev ∈ excludeVersions,
      v ≠ ev ∧ v ≠ ev ++ "-antfarm") ∧
    (∀ v ∈ versions, (∀ ev ∈ excludeVersions, v ≠ ev ∧ v ≠ ev ++ "-antfarm") →
      (ExcludeVersions versions excludeVersions).count v = versions.count v) := by
  have hfilter : ExcludeVersions versions excludeVersions
      = versions.filter (fun v =>
          decide (∀ ev ∈ excludeVersions, ¬ (v = ev ∨ v = ev ++ "-antfarm"))) := by
    rw [ExcludeVersions, excludeVersionsLoop_eq, List.nil_append]
    apply List.filter_congr
    intro v _
    cases h : excludedBy v excludeVersions
    · have h2 := (excludedBy_iff v excludeVersions).not.mp (by simp [h])
      simp only [Bool.not_false]
      symm
      rw [decide_eq_true_eq]
      intro ev hev hc
      exact h2 ⟨ev, hev, hc⟩
    · obtain ⟨ev, hev, hc⟩ := (excludedBy_iff v excludeVersions).mp h
      simp only [Bool.not_true]
      symm
      rw [decide_eq_false_iff_not]
      intro hall
      exact hall ev hev hc
  refine ⟨hfilter, ?_, ?_, ?_⟩
  · rw [hfilter]
    exact List.filter_sublist _
  · intro v hv ev hev
    rw [hfilter, List.mem_filter, decide_eq_true_eq] at hv
    have := hv.2 ev hev
    exact ⟨fun e => this (Or.inl e), fun e => this (Or.inr e)⟩
  · intro v _ hkeep
    rw [hfilter, List.count_filter]
    rw [decide_eq_true_eq]
    intro ev hev hc
    rcases hc with hc | hc
    · exact (hkeep ev hev).1 hc
    · exact (hkeep ev hev).2 hc

/-! ## Releases -/

/-- The tags after the workaround are v1.5.5 and the tags before it. -/
theorem mem_insertV155 (VersionCmp : String → String → Int) (l : List String) (x : String) :
    x ∈ insertV155 VersionCmp l ↔ x = "v1.5.5" ∨ x ∈ l := by
  induction l with
  | nil => simp [insertV155]
  | cons t ts ih =>
    unfold insertV155
    split_ifs with h1 h2
    · constructor
      · intro h; exact Or.inr h
      · rintro (h | h)
        · rw [h, ← h1]; exact List.mem_cons_self _ _
        · exact h
    · simp
    · simp only [List.mem_cons, ih]
      tauto

/-- After the workaround, v1.5.5 is among the tags, whatever the minimal version. -/
theorem v155_mem_insertV155 (VersionCmp : String → String → Int) (l : List String) :
    "v1.5.5" ∈ insertV155 VersionCmp l :=
  (mem_insertV155 VersionCmp l _).mpr (Or.inl rfl)

/-- The workaround for v1.5.5 keeps an ascending list ascending. -/
theorem insertV155_pairwise (VersionCmp : String → String → Int)
    (hanti : ∀ a b, VersionCmp a b < 0 ↔ 0 < VersionCmp b a)
    (htrans : ∀ a b c, VersionCmp a b ≤ 0 → VersionCmp b c ≤ 0 → VersionCmp a c ≤ 0)
    (l : List String) (hl : l.Pairwise fun a b => VersionCmp a b ≤ 0) :
    (insertV155 VersionCmp l).Pairwise fun a b => VersionCmp a b ≤ 0 := by
  induction l with
  | nil => simp [insertV155]
  | cons t ts ih =>
    rw [List.pairwise_cons] at hl
    unfold insertV155
    split_ifs with h1 h2
    · exact List.pairwise_cons.mpr hl
    · refine List.pairwise_cons.mpr ⟨?_, List.pairwise_cons.mpr hl⟩
      intro x hx
      rcases List.mem_cons.mp hx with hx | hx
      · rw [hx]; exact le_of_lt h2
      · exact htrans _ _ _ (le_of_lt h2) (hl.1 x hx)
    · refine List.pairwise_cons.mpr ⟨?_, ih hl.2⟩
      intro x hx
      rcases (mem_insertV155 VersionCmp ts x).mp hx with hx | hx
      · rw [hx]
        by_contra hc
        exact h2 ((hanti _ _).mpr (not_le.mp hc))
      · exact hl.1 x hx

/-- Replacing release tags by their patch tags keeps, position by position,
the release the tag stands for. -/
theorem replaceByPatchTags_positions (patchTags l : List String) :
    List.Forall₂ (fun r out => out = r ∨ out = r ++ antfarmTagSuffix) l
      (replaceByPatchTags patchTags l) := by
  induction l with
  | nil => exact List.Forall₂.nil
  | cons r rs ih =>
    refine List.Forall₂.cons ?_ ih
    by_cases h : r ++ antfarmTagSuffix ∈ patchTags <;> simp [h]

/-- The sort by semantic version yields an ascending list. -/
theorem sortBySemanticVersion_pairwise (VersionCmp : String → String → Int)
    (hanti : ∀ a b, VersionCmp a b < 0 ↔ 0 < VersionCmp b a)
    (htrans : ∀ a b c, VersionCmp a b ≤ 0 → VersionCmp b c ≤ 0 → VersionCmp a c ≤ 0)
    (l : List String) :
    (sortBySemanticVersion VersionCmp l).Pairwise fun a b => VersionCmp a b ≤ 0 := by
  have hle : ∀ a b, ¬ VersionCmp b a < 0 ↔ VersionCmp a b ≤ 0 := by
    intro a b
    rw [hanti b a, not_lt]
  haveI : IsTotal String (fun a b => ¬ VersionCmp b a < 0) :=
    ⟨fun a b => by
      by_cases h : VersionCmp b a < 0
      · right
        intro h2
        have := (hanti b a).mp h
        omega
      · exact Or.inl h⟩
  haveI : IsTrans String (fun a b => ¬ VersionCmp b a < 0) :=
    ⟨fun a b c hab hbc => (hle a c).mpr (htrans a b c ((hle a b).mp hab) ((hle b c).mp hbc))⟩
  have hs := List.sorted_insertionSort (fun a b => ¬ VersionCmp b a < 0) l
  exact List.Pairwise.imp (fun {a b} h => (hle a b).mp h) hs

theorem cmpNums_antisymm (a : List Nat) : ∀ b, cmpNums b a = - cmpNums a b := by
  induction a with
  | nil => intro b; cases b <;> simp [cmpNums]
  | cons x xs ih =>
    intro b
    cases b with
    | nil => simp [cmpNums]
    | cons y ys =>
      simp only [cmpNums]
      split_ifs <;> first | omega | exact ih ys

theorem cmpNums_trans (a : List Nat) :
    ∀ b c, cmpNums a b ≤ 0 → cmpNums b c ≤ 0 → cmpNums a c ≤ 0 := by
  induction a with
  | nil => intro b c _ _; cases c <;> simp [cmpNums]
  | cons x xs ih =>
    intro b c hab hbc
    cases b with
    | nil => simp [cmpNums] at hab
    | cons y ys =>
      cases c with
      | nil => simp [cmpNums] at hbc
      | cons z zs =>
        simp only [cmpNums] at hab hbc ⊢
        split_ifs at hab hbc ⊢ <;> first | omega | exact ih ys zs hab hbc

/-- The example comparison is antisymmetric. -/
theorem exampleVersionCmp_antisymm (a b : String) :
    exampleVersionCmp a b < 0 ↔ 0 < exampleVersionCmp b a := by
  unfold exampleVersionCmp
  rw [cmpNums_antisymm ((splitDots a.data).map componentNum)]
  omega

/-- The example comparison is transitive. -/
theorem exampleVersionCmp_trans (a b c : String) (hab : exampleVersionCmp a b ≤ 0)
    (hbc : exampleVersionCmp b c ≤ 0) : exampleVersionCmp a c ≤ 0 :=
  cmpNums_trans _ _ _ hab hbc

/-- A release tag collected from a page is the name of a tag of the page that
is a release of at least the minimal version. -/
theorem collectTags_releaseTags (VersionCmp : String → String → Int) (minVersion : String)
    (ts : List TagData) :
    ∀ (acc : Collected) (r : String),
      r ∈ (collectTags VersionCmp minVersion ts acc).releaseTags →
      r ∈ acc.releaseTags ∨ ∃ t ∈ ts, t.name = r ∧ t.release = true ∧
        VersionCmp (TrimLeftV r) (TrimLeftV minVersion) ≥ 0 := by
  induction ts with
  | nil => intro acc r h; exact Or.inl h
  | cons t ts ih =>
    intro acc r h
    simp only [collectTags] at h
    rcases ih _ r h with h2 | ⟨t2, ht2, h3⟩
    · simp only at h2
      split_ifs at h2 with hc
      · rcases List.mem_append.mp h2 with h4 | h4
        · exact Or.inl h4
        · rw [List.mem_singleton] at h4
          exact Or.inr ⟨t, List.mem_cons_self _ _, h4.symm, hc.1, h4 ▸ hc.2⟩
      · exact Or.inl h2
    · exact Or.inr ⟨t2, List.mem_cons_of_mem _ ht2, h3⟩

/-- A release tag collected from the pages is the name of a tag of some page
that is a release of at least the minimal version. -/
theorem collectBodies_releaseTags (VersionCmp : String → String → Int) (minVersion : String)
    (bodies : List (Except Error (List TagData))) :
    ∀ (acc c : Collected) (r : String),
      collectBodies VersionCmp minVersion bodies acc = .ok c → r ∈ c.releaseTags →
      r ∈ acc.releaseTags ∨ ∃ tags, Except.ok tags ∈ bodies ∧ ∃ t ∈ tags,
        t.name = r ∧ t.release = true ∧
        VersionCmp (TrimLeftV r) (TrimLeftV minVersion) ≥ 0 := by
  induction bodies with
  | nil =>
    intro acc c r h hr
    simp only [collectBodies, Except.ok.injEq] at h
    exact Or.inl (h ▸ hr)
  | cons body bodies ih =>
    intro acc c r h hr
    cases body with
    | error e => simp [collectBodies] at h
    | ok tags =>
      simp only [collectBodies] at h
      rcases ih _ c r h hr with h2 | ⟨tags2, h2, h3⟩
      · rcases collectTags_releaseTags VersionCmp minVersion tags acc r h2 with h4 | h4
        · exact Or.inl h4
        · exact Or.inr ⟨tags, List.mem_cons_self _ _, h4⟩
      · exact Or.inr ⟨tags2, List.mem_cons_of_mem _ h2, h3⟩

/-- Every tag returned by `GetReleases` stands for (is, or is the patch tag of)
either v1.5.5 or a tag of the repository that is a release of at least the
minimal version. -/
theorem GetReleases_mem (VersionCmp : String → String → Int)
    (bodies : List (Except Error (List TagData))) (minVersion : String) (result : List String)
    (h : GetReleases VersionCmp (.ok bodies) minVersion = .ok result) :
    ∀ out ∈ result, ∃ r, (out = r ∨ out = r ++ antfarmTagSuffix) ∧
      (r = "v1.5.5" ∨ ∃ tags, Except.ok tags ∈ bodies ∧ ∃ t ∈ tags,
        t.name = r ∧ t.release = true ∧
        VersionCmp (TrimLeftV r) (TrimLeftV minVersion) ≥ 0) := by
  intro out hout
  simp only [GetReleases] at h
  cases hc : collectBodies VersionCmp minVersion bodies { releaseTags := [], patchTags := [] } with
  | error e => simp [hc] at h
  | ok c =>
    simp only [hc, Except.ok.injEq] at h
    rw [← h, replaceByPatchTags, List.mem_map] at hout
    obtain ⟨r, hr, hout⟩ := hout
    refine ⟨r, ?_, ?_⟩
    · split_ifs at hout
      · exact Or.inr hout.symm
      · exact Or.inl hout.symm
    · rcases (mem_insertV155 VersionCmp _ r).mp hr with hr | hr
      · exact Or.inl hr
      · rw [sortBySemanticVersion, List.mem_insertionSort] at hr
        rcases collectBodies_releaseTags VersionCmp minVersion bodies _ c r hc hr with h2 | h2
        · simp at h2
        · exact Or.inr h2

/-- C24, the code at the failing input: the repository has the releases v1.6.0
and v1.7.0 and the plain git tag v1.5.5, and the minimal version is v1.6.0.
`GetReleases` returns v1.5.5 first, although v1.5.5 is below the minimal
version (and is no release); the same happens when the repository has no tag
v1.5.5 at all. -/
theorem GetReleases_adds_v155_below_minVersion :
    GetReleases exampleVersionCmp
        (.ok [.ok [⟨"v1.7.0", true⟩, ⟨"v1.6.0", true⟩, ⟨"v1.5.5", false⟩]]) "v1.6.0"
      = .ok ["v1.5.5", "v1.6.0", "v1.7.0"] ∧
    GetReleases exampleVersionCmp (.ok [.ok [⟨"v1.7.0", true⟩, ⟨"v1.6.0", true⟩]]) "v1.6.0"
      = .ok ["v1.5.5", "v1.6.0", "v1.7.0"] ∧
    exampleVersionCmp (TrimLeftV "v1.5.5") (TrimLeftV "v1.6.0") < 0 :=
  ⟨rfl, rfl, by decide⟩

/-- Whatever the version comparison, the tags and the minimal version, a
successful `GetReleases` returns v1.5.5 or its patch tag. -/
theorem GetReleases_always_has_v155 (VersionCmp : String → String → Int)
    (bodies : List (Except Error (List TagData))) (minVersion : String) (result : List String)
    (h : GetReleases VersionCmp (.ok bodies) minVersion = .ok result) :
    "v1.5.5" ∈ result ∨ "v1.5.5" ++ antfarmTagSuffix ∈ result := by
  simp only [GetReleases] at h
  cases hc : collectBodies VersionCmp minVersion bodies { releaseTags := [], patchTags := [] } with
  | error e => simp [hc] at h
  | ok c =>
    simp only [hc, Except.ok.injEq] at h
    have hm := v155_mem_insertV155 VersionCmp (sortBySemanticVersion VersionCmp c.releaseTags)
    rw [← h, replaceByPatchTags]
    by_cases hp : "v1.5.5" ++ antfarmTagSuffix ∈ c.patchTags
    · right
      exact List.mem_map.mpr ⟨"v1.5.5", hm, by simp [hp]⟩
    · left
      exact List.mem_map.mpr ⟨"v1.5.5", hm, by simp [hp]⟩

/-- C25: for a version comparison that is antisymmetric and transitive, the
v1.5.5 workaround keeps an ascending list of release tags ascending; the
replacement by patch tags keeps, position by position, the release each tag
stands for; the sort yields an ascending list; and so every list returned by
`GetReleases` is, position by position, the tag or the patch tag of a list of
releases in ascending order. -/
theorem GetReleases_ascending (VersionCmp : String → String → Int)
    (hanti : ∀ a b, VersionCmp a b < 0 ↔ 0 < VersionCmp b a)
    (htrans : ∀ a b c, VersionCmp a b ≤ 0 → VersionCmp b c ≤ 0 → VersionCmp a c ≤ 0) :
    (∀ releaseTags : List String, (releaseTags.Pairwise fun a b => VersionCmp a b ≤ 0) →
      (insertV155 VersionCmp releaseTags).Pairwise fun a b => VersionCmp a b ≤ 0) ∧
    (∀ patchTags releaseTags : List String,
      List.Forall₂ (fun r out => out = r ∨ out = r ++ antfarmTagSuffix) releaseTags
        (replaceByPatchTags patchTags releaseTags)) ∧
    (∀ releaseTags : List String,
      (sortBySemanticVersion VersionCmp releaseTags).Pairwise fun a b => VersionCmp a b ≤ 0) ∧
    (∀ bodies minVersion result, GetReleases VersionCmp bodies minVersion = .ok result →
      ∃ releases : List String, (releases.Pairwise fun a b => VersionCmp a b ≤ 0) ∧
        List.Forall₂ (fun r out => out = r ∨ out = r ++ antfarmTagSuffix) releases result) := by
  refine ⟨insertV155_pairwise VersionCmp hanti htrans, replaceByPatchTags_positions,
    sortBySemanticVersion_pairwise VersionCmp hanti htrans, ?_⟩
  intro bodies minVersion result h
  cases bodies with
  | error e => simp [GetReleases] at h
  | ok bodies =>
    simp only [GetReleases] at h
    cases hc : collectBodies VersionCmp minVersion bodies
        { releaseTags := [], patchTags := [] } with
    | error e => simp [hc] at h
    | ok c =>
      simp only [hc, Except.ok.injEq] at h
      refine ⟨insertV155 VersionCmp (sortBySemanticVersion VersionCmp c.releaseTags), ?_, ?_⟩
      · exact insertV155_pairwise VersionCmp hanti htrans _
          (sortBySemanticVersion_pairwise VersionCmp hanti htrans _)
      · rw [← h]
        exact replaceByPatchTags_positions _ _

/-- Witness of C25: the example comparison, on a repository with releases
v1.6.0, v1.4.8 (patched) and v1.4.11 and minimal version v1.4.8. -/
theorem GetReleases_ascending_witness :
    GetReleases exampleVersionCmp
        (.ok [.ok [⟨"v1.6.0", true⟩, ⟨"v1.4.8", true⟩, ⟨"v1.4.8-antfarm", false⟩,
          ⟨"v1.4.11", true⟩]]) "v1.4.8"
      = .ok ["v1.4.8-antfarm", "v1.4.11", "v1.5.5", "v1.6.0"] ∧
    ∃ releases : List String, (releases.Pairwise fun a b => exampleVersionCmp a b ≤ 0) ∧
      List.Forall₂ (fun r out => out = r ∨ out = r ++ antfarmTagSuffix) releases
        ["v1.4.8-antfarm", "v1.4.11", "v1.5.5", "v1.6.0"] :=
  ⟨rfl, (GetReleases_ascending exampleVersionCmp exampleVersionCmp_antisymm
    exampleVersionCmp_trans).2.2.2
      (.ok [.ok [⟨"v1.6.0", true⟩, ⟨"v1.4.8", true⟩, ⟨"v1.4.8-antfarm", false⟩,
        ⟨"v1.4.11", true⟩]]) "v1.4.8" _ rfl⟩

/-! ## A failed peer query -/

/-- C26, counterexample: a poll tick whose peer query returns an error together
with a list of two peers produces one error event, the query error, and no
"less than two peers" event. -/
theorem gatewayConnectability_failed_query_with_peers :
    (gatewayIteration ⟨false, ⟨["peer1", "peer2"]⟩, some "decode error"⟩).events
      = [.selectWait 30 false, .call .GatewayGet false, .logLine .errorCallingGateway] := by
  decide

/-- C26, amended: on a poll tick whose peer query fails, the job logs the query
error and then tests the peer list returned along with the error: exactly when
that list has fewer than two peers, as the empty list has, the "less than two
peers" error follows, so the failed query produces two error events, and the
last event is the one a successful query with the same peer list ends in. -/
theorem gatewayConnectability_failed_query (t : GatewayTick) (hstop : t.stop = false)
    (herr : t.err ≠ none) :
    (gatewayIteration t).events
      = [Event.selectWait 30 false, Event.call .GatewayGet false,
          Event.logLine .errorCallingGateway]
        ++ (if t.gatewayInfo.Peers.length < 2 then [Event.logLine .lessThanTwoPeers] else []) ∧
    (t.gatewayInfo.Peers = [] →
      (gatewayIteration t).events
        = [Event.selectWait 30 false, Event.call .GatewayGet false,
            Event.logLine .errorCallingGateway, Event.logLine .lessThanTwoPeers]) ∧
    (t.gatewayInfo.Peers.length < 2 →
      (gatewayIteration t).events.getLast?
        = (gatewayIteration { t with err := none }).events.getLast?) := by
  cases he : t.err with
  | none => exact absurd he herr
  | some e =>
    refine ⟨?_, ?_, ?_⟩
    · by_cases h : t.gatewayInfo.Peers.length < 2 <;>
        simp [gatewayIteration, hstop, he, h, gatewayConnectabilitySleepTime]
    · intro h
      simp [gatewayIteration, hstop, he, h, gatewayConnectabilitySleepTime]
    · intro h
      simp [gatewayIteration, hstop, he, h]

/-- Witness of C26 amended: a failed query returning the zero value. -/
theorem gatewayConnectability_failed_query_witness :
    (⟨false, ⟨[]⟩, some "connection refused"⟩ : GatewayTick).err ≠ none ∧
    (gatewayIteration ⟨false, ⟨[]⟩, some "connection refused"⟩).events
      = [Event.selectWait 30 false, Event.call .GatewayGet false,
          Event.logLine .errorCallingGateway, Event.logLine .lessThanTwoPeers] :=
  ⟨by decide, (gatewayConnectability_failed_query ⟨false, ⟨[]⟩, some "connection refused"⟩ rfl
    (by decide)).2.1 rfl⟩

end AntFarm
